import Mathlib

/-!
Verification of the MAS coordinator orchestration engine (`src/task/agent.py`
and `src/task/coordination/ums_agent.py`) against its natural-language
specification.

The Python code is shallowly embedded: every function of the source that the
claims touch is translated into an executable Lean definition.  External
collaborators (the DIAL decomposition/aggregation model calls and the GPA
gateway, whose module is not part of the sources) are parameters ("oracles")
of the embedding, exactly as the spec treats them as black boxes.  Python
exceptions are modelled by an explicit `Except` result; machine-level detail
(streaming transport, logging, UI stages) carries no information relevant to
any claim and is omitted.
-/

/-- One unit of work, `task.models.Subtask`.  Modelled from the spec:
`task/models.py` is not among the sources; §3 of the spec gives the fields
`task_id` (positive integer), `agent_name` (enum over known backend
capabilities), `task_description`, `depends_on` (optional single reference).
`agent_name` is embedded as its string tag so that values outside the known
capabilities remain representable: the dispatcher in `agent.py` has an
explicit unknown-agent branch. -/
structure Subtask where
  task_id : Nat
  agent_name : String
  task_description : String
  depends_on : Option Nat
deriving DecidableEq

/-- Outcome of one subtask execution, `task.models.AgentResult`.  Modelled
from the spec (§3): `task_id`, `agent_name`, `content` (empty on failure),
`success`, optional `error`. -/
structure AgentResult where
  task_id : Nat
  agent_name : String
  content : String
  success : Bool
  error : Option String
deriving DecidableEq

/-- A `Subtask` paired with its `AgentResult`, `task.models.TaskResult`.
Modelled from the spec (§3). -/
structure TaskResult where
  task : Subtask
  agent_result : AgentResult
deriving DecidableEq

/-- The decomposition collaborator's structured output,
`task.models.TaskDecomposition`.  Modelled from the spec (§3): a list of
subtasks plus a `stop` flag. -/
structure TaskDecomposition where
  subtasks : List Subtask
  stop : Bool

/-- The string tag of the GPA capability (`AgentName.GPA`). -/
def AgentNameGPA : String := "gpa"

/-- The string tag of the UMS capability (`AgentName.UMS`). -/
def AgentNameUMS : String := "ums"

/-- The persisted per-turn state dictionary: the two independent keys
`UMS_CONVERSATION_ID` and `GPA_MESSAGES` (see `choice.set_state` in
`handle_request` and the state inspection in `_execute_subtasks`).
GPA message fragments are opaque to the engine and embedded as strings. -/
structure StateDict where
  ums_conversation_id : Option String
  gpa_messages : Option (List String)
deriving DecidableEq

/-- `message.custom_content`: optionally carries a persisted state dict. -/
structure CustomContent where
  state : Option StateDict
deriving DecidableEq

/-- A chat message as the engine observes it: its text content and the
optional custom content with persisted state. -/
structure Message where
  content : String
  custom_content : Option CustomContent
deriving DecidableEq

/-- The coordinator's mutable cross-round accumulators
(`self.gpa_intermediate_state`, `self.ums_conversation_id`), threaded
explicitly through the embedded executor. -/
structure CoordState where
  gpa_intermediate_state : List String
  ums_conversation_id : Option String
deriving DecidableEq

/-- Python exceptions, as far as the coordinator's control flow observes
them: `KeyError` from a dict lookup, `TypeError` from call binding,
`ValueError` from the unknown-agent branch, and arbitrary other exceptions
raised by a gateway call (carrying their stringification). -/
inductive PyExn where
  | keyError (k : Nat)
  | typeError (msg : String)
  | valueError (msg : String)
  | other (msg : String)
deriving DecidableEq

/-- Python `str(e)` for the exceptions above.  (Only caught exceptions are
ever stringified by the coordinator; `str` of a `KeyError` is the `repr` of
its key.) -/
def PyExn.str : PyExn → String
  | .keyError k => toString k
  | .typeError msg => msg
  | .valueError msg => msg
  | .other msg => msg

/-! ## Session State Recovery (`UMSAgentGateway.__get_ums_conversation_id`) -/

/-- `UMSAgentGateway.__get_ums_conversation_id`: iterate the request's
message history from the start; on the first message whose custom content
carries a state dict with a truthy (non-`None`, non-empty) value under
`ums_conversation_id`, return that value; otherwise continue; `None` if the
scan finds nothing. -/
def getUmsConversationId : List Message → Option String
  | [] => none
  | m :: rest =>
    match m.custom_content with
    | some cc =>
      match cc.state with
      | some sd =>
        match sd.ums_conversation_id with
        | some cid => if cid = "" then getUmsConversationId rest else some cid
        | none => getUmsConversationId rest
      | none => getUmsConversationId rest
    | none => getUmsConversationId rest

/-- The truthy `ums_conversation_id` carried by one message, if any: the
per-message test performed by the loop of `__get_ums_conversation_id`. -/
def msgUmsId (m : Message) : Option String :=
  match m.custom_content with
  | some cc =>
    match cc.state with
    | some sd =>
      match sd.ums_conversation_id with
      | some cid => if cid = "" then none else some cid
      | none => none
    | none => none
  | none => none

/-- `UMSAgentGateway.response`, lines 35–39: a new remote UMS conversation is
created exactly when the recovered identifier is falsy
(`if not ums_conversation_id`). -/
def umsNewSessionTriggered (messages : List Message) : Bool :=
  match getUmsConversationId messages with
  | none => true
  | some cid => cid == ""

/-- Modelled from the spec: the Session State Recovery contract of §4.5 reads
"scan the incoming conversation's message history (most recent first, …) for
the most recently persisted opaque state payload".  This definition follows
the spec's words — scan most recent first — for comparison against the
source-translated `getUmsConversationId`. -/
def specMostRecentUmsId (messages : List Message) : Option String :=
  getUmsConversationId messages.reverse

/-! ## Call binding of the UMS gateway invocation

`MASCoordinator._call_agent` invokes `self.ums_gateway.response(request=…,
stage=…, task_description=…, ums_conversation_id=…)`, while
`UMSAgentGateway.response` declares the parameters `(self, choice, stage,
request, additional_instructions)`.  Python binds keyword arguments by name;
an unknown keyword raises `TypeError` before the callee body runs.  The
binding step is embedded explicitly. -/

/-- The (non-`self`) parameter names of `UMSAgentGateway.response`. -/
def umsResponseParams : List String := ["choice", "stage", "request", "additional_instructions"]

/-- The keyword-argument names supplied at the call site in `_call_agent`. -/
def umsCallKwargs : List String := ["request", "stage", "task_description", "ums_conversation_id"]

/-- Python call binding for a purely keyword call: the first keyword that is
not a declared parameter raises `TypeError` (unexpected keyword argument);
otherwise the first declared parameter left unbound raises `TypeError`
(missing required argument); otherwise the binding succeeds. -/
def bindKwargs (params kwargs : List String) : Except PyExn Unit :=
  match kwargs.find? (fun k => !(params.contains k)) with
  | some k => .error (.typeError ("response() got an unexpected keyword argument: " ++ k))
  | none =>
    match params.find? (fun p => !(kwargs.contains p)) with
    | some p => .error (.typeError ("response() missing required argument: " ++ p))
    | none => .ok ()

/-! ## Serialization (pydantic `model_dump_json`) -/

/-- JSON string escaping as `model_dump_json` performs it for the characters
that can occur here: backslash, double quote, newline. -/
def jsonEscape (s : String) : String :=
  String.mk (s.data.foldr
    (fun c acc =>
      match c with
      | '\\' => '\\' :: '\\' :: acc
      | '"' => '\\' :: '"' :: acc
      | '\n' => '\\' :: 'n' :: acc
      | c => c :: acc) [])

/-- `Subtask.model_dump_json()`. -/
def serializeSubtask (t : Subtask) : String :=
  "\x7b\"task_id\":" ++ toString t.task_id
    ++ ",\"agent_name\":\"" ++ jsonEscape t.agent_name
    ++ "\",\"task_description\":\"" ++ jsonEscape t.task_description
    ++ "\",\"depends_on\":"
    ++ (match t.depends_on with
        | some d => toString d
        | none => "null")
    ++ "\x7d"

/-- `AgentResult.model_dump_json()`. -/
def serializeAgentResult (r : AgentResult) : String :=
  "\x7b\"task_id\":" ++ toString r.task_id
    ++ ",\"agent_name\":\"" ++ jsonEscape r.agent_name
    ++ "\",\"content\":\"" ++ jsonEscape r.content
    ++ "\",\"success\":" ++ (if r.success then "true" else "false")
    ++ ",\"error\":"
    ++ (match r.error with
        | some e => "\"" ++ jsonEscape e ++ "\""
        | none => "null")
    ++ "\x7d"

/-- `TaskResult.model_dump_json()`. -/
def serializeTaskResult (tr : TaskResult) : String :=
  "\x7b\"task\":" ++ serializeSubtask tr.task
    ++ ",\"agent_result\":" ++ serializeAgentResult tr.agent_result ++ "\x7d"

/-! ## Results dictionary (`results: dict[int, TaskResult]`)

Python dicts preserve insertion order; assignment to an existing key
overwrites in place, assignment to a fresh key appends. -/

/-- Dict assignment `m[k] = v`. -/
def dinsert (k : Nat) (v : TaskResult) : List (Nat × TaskResult) → List (Nat × TaskResult)
  | [] => [(k, v)]
  | (k₀, v₀) :: rest =>
    if k₀ = k then (k₀, v) :: rest else (k₀, v₀) :: dinsert k v rest

/-- Dict lookup `m.get(k)` / `k in m` combined. -/
def dlookup (k : Nat) : List (Nat × TaskResult) → Option TaskResult
  | [] => none
  | (k₀, v₀) :: rest => if k₀ = k then some v₀ else dlookup k rest

/-- `subtasks_by_id = {subtask.task_id: subtask for subtask in subtasks}`
followed by `subtasks_by_id[tid]`: on duplicate ids the later entry wins,
hence the lookup over the reversed list. -/
def lookupById (subtasks : List Subtask) (tid : Nat) : Option Subtask :=
  subtasks.reverse.find? (fun t => t.task_id == tid)

/-! ## Context resolution (`MASCoordinator._gather_context`) -/

/-- `_gather_context`: no dependency means no context; a dependency whose
recorded result exists and succeeded contributes its `TaskResult` serialized;
anything else (missing or failed dependency) contributes no context. -/
def gatherContext (subtask : Subtask) (results : List (Nat × TaskResult)) : Option String :=
  match subtask.depends_on with
  | none => none
  | some d =>
    match dlookup d results with
    | some tr => if tr.agent_result.success then some (serializeTaskResult tr) else none
    | none => none

/-- The instruction template of `_call_agent`: the bare description when the
context is falsy (absent or empty), otherwise the context, a literal
separator, and the description. -/
def instructionFor (task_description : String) (context : Option String) : String :=
  match context with
  | some c =>
    if c = "" then task_description
    else c ++ "\n\n---\n\nYour Task: " ++ task_description
  | none => task_description

/-! ## Dependency Scheduler (`MASCoordinator._topological_sort`) -/

/-- The task ids of a subtask list, in list order (the key set of the
`children` and `parent_count` dicts). -/
def taskIds (subtasks : List Subtask) : List Nat :=
  subtasks.map (·.task_id)

/-- The `children` adjacency entry for `d`: the ids of the subtasks declaring
`depends_on = d`, accumulated in list order. -/
def childrenOf (subtasks : List Subtask) (d : Nat) : List Nat :=
  (subtasks.filter (fun t => t.depends_on == some d)).map (·.task_id)

/-- The initial `parent_count` entry for `x`: `1` exactly when some subtask
with id `x` declares a dependency (`parent_count[subtask.task_id] = 1`),
else the seeded `0`. -/
def parentCount0 (subtasks : List Subtask) (x : Nat) : Int :=
  if subtasks.any (fun t => t.task_id == x && t.depends_on.isSome) then 1 else 0

/-- The seed queue: ids of the subtasks whose `parent_count` entry is zero,
in original list order. -/
def seedQueue (subtasks : List Subtask) : List Nat :=
  (subtasks.filter (fun t => parentCount0 subtasks t.task_id == 0)).map (·.task_id)

/-- Insertion step of the ascending sort used to model Python's `sorted`. -/
def insertSorted (x : Nat) : List Nat → List Nat
  | [] => [x]
  | y :: ys => if x ≤ y then x :: y :: ys else y :: insertSorted x ys

/-- Python's `sorted` on a list of ids (ascending). -/
def sortNat : List Nat → List Nat
  | [] => []
  | x :: xs => insertSorted x (sortNat xs)

/-- The inner loop over `sorted(children[task_id])`: decrement each child's
`parent_count` in turn and collect, in order, the children whose count hits
exactly zero (these are appended to the queue). -/
def processChildren (counts : Nat → Int) : List Nat → ((Nat → Int) × List Nat)
  | [] => (counts, [])
  | c :: cs =>
    let n := counts c - 1
    let counts' := fun x => if x = c then n else counts x
    let res := processChildren counts' cs
    (res.1, (if n = 0 then [c] else []) ++ res.2)

/-- The `while queue:` loop of `_topological_sort`: pop the queue head,
append it to the result, then process its children.  The loop is embedded
with explicit fuel; the caller passes `2·|subtasks| + 1`, which dominates the
Python loop's iteration count: every queue insertion is either one of the at
most `|subtasks|` seeds or follows a decrement of some id's strictly
decreasing count to exactly zero — at most once per id — so insertions, and
hence pops, never exceed `2·|subtasks|`. -/
def kahnLoop (subtasks : List Subtask) : Nat → List Nat → List Nat → (Nat → Int) → List Nat
  | 0, result, _, _ => result
  | _ + 1, result, [], _ => result
  | fuel + 1, result, d :: rest, counts =>
    let step := processChildren counts (sortNat (childrenOf subtasks d))
    kahnLoop subtasks fuel (result ++ [d]) (rest ++ step.2) step.1

/-- The first dangling dependency in list order, if any: building `children`
performs `children[subtask.depends_on].append(…)`, which raises `KeyError`
at the first subtask whose `depends_on` names an id outside the set. -/
def hasDanglingDep (subtasks : List Subtask) : Option Nat :=
  match subtasks.find? (fun t =>
    match t.depends_on with
    | some d => !((taskIds subtasks).contains d)
    | none => false) with
  | some t => t.depends_on
  | none => none

/-- `MASCoordinator._topological_sort`: `KeyError` on the first dangling
`depends_on`, otherwise the queue-based order described above. -/
def _topological_sort (subtasks : List Subtask) : Except PyExn (List Nat) :=
  match hasDanglingDep subtasks with
  | some d => .error (.keyError d)
  | none =>
    .ok (kahnLoop subtasks (2 * subtasks.length + 1) [] (seedQueue subtasks)
      (parentCount0 subtasks))

/-- The declared dependency of the task with id `x` (the id's `depends_on`
under the `subtasks_by_id` view). -/
def parentOf (subtasks : List Subtask) (x : Nat) : Option Nat :=
  match lookupById subtasks x with
  | some t => t.depends_on
  | none => none

/-- Index of the first occurrence of `x` (used to state "strictly after"). -/
def idxOfN (x : Nat) : List Nat → Nat
  | [] => 0
  | y :: ys => if y = x then 0 else idxOfN x ys + 1

/-- Loop invariant of the embedded `while queue:` loop of
`_topological_sort`, relating the emitted order `result`, the pending
`queue` and the current `parent_count` table `counts`:
ids never repeat across `result ++ queue`; both hold only member ids; an id
whose dependency has not been emitted still carries its initial count, one
whose dependency has been emitted carries it minus one; an id has been seen
(emitted or queued) exactly when its count is non-positive; queued ids have
their dependency already emitted; and every emitted id follows its
dependency strictly in the emitted order. -/
structure KahnInv (subtasks : List Subtask) (result queue : List Nat)
    (counts : Nat → Int) : Prop where
  nodup : (result ++ queue).Nodup
  mem_ids : ∀ x ∈ result ++ queue, x ∈ taskIds subtasks
  counts_unres : ∀ x ∈ taskIds subtasks,
    (∀ d, parentOf subtasks x = some d → d ∉ result) →
    counts x = parentCount0 subtasks x
  counts_res : ∀ x ∈ taskIds subtasks, ∀ d, parentOf subtasks x = some d → d ∈ result →
    counts x = parentCount0 subtasks x - 1
  mem_iff : ∀ x ∈ taskIds subtasks, (x ∈ result ++ queue ↔ counts x ≤ 0)
  queue_resolved : ∀ x ∈ queue, ∀ d, parentOf subtasks x = some d → d ∈ result
  ordered : ∀ x ∈ result, ∀ d, parentOf subtasks x = some d →
    d ∈ result ∧ idxOfN d result < idxOfN x result

/-! ## Subtask Executor (`MASCoordinator._execute_subtasks`, `_call_agent`) -/

/-- The GPA gateway (`task/coordination/gpa.py`, not among the sources; an
external collaborator per §2): a black-box function of the instruction and
the accumulated GPA intermediate state, returning a message or raising. -/
def GpaOracle : Type := String → List String → Except PyExn Message

/-- The UMS gateway body, as a black box of the instruction and the current
conversation id.  (The embedded `_call_agent` never reaches it: the keyword
binding of the call fails first.) -/
def UmsOracle : Type := String → Option String → Except PyExn Message

/-- `MASCoordinator._call_agent`: build the instruction from the context and
description, then dispatch on `agent_name`.  GPA goes to the GPA gateway;
UMS performs the keyword-argument binding of the source call site (which
raises `TypeError`) before the gateway body could run; any other name raises
`ValueError`. -/
def callAgent (gpa : GpaOracle) (ums : UmsOracle) (st : CoordState)
    (t : Subtask) (context : Option String) : Except PyExn Message :=
  let instruction := instructionFor t.task_description context
  if t.agent_name = AgentNameGPA then
    gpa instruction st.gpa_intermediate_state
  else if t.agent_name = AgentNameUMS then
    match bindKwargs umsResponseParams umsCallKwargs with
    | .error e => .error e
    | .ok _ => ums instruction st.ums_conversation_id
  else
    .error (.valueError ("Unknown agent: " ++ t.agent_name))

/-- The `elif state.get(GPA_MESSAGES)` branch of the state merge: extend the
GPA accumulator when the fragment list is truthy (present and non-empty). -/
def mergeGpa (st : CoordState) (sd : StateDict) : CoordState :=
  match sd.gpa_messages with
  | some l =>
    if l.isEmpty then st
    else { st with gpa_intermediate_state := st.gpa_intermediate_state ++ l }
  | none => st

/-- State merging after a successful call (lines 149–154 of `agent.py`):
when the message carries a state dict, a truthy `UMS_CONVERSATION_ID`
overwrites the stored conversation id; otherwise a truthy `GPA_MESSAGES`
list is appended to the GPA accumulator. -/
def mergeState (st : CoordState) (m : Message) : CoordState :=
  match m.custom_content with
  | none => st
  | some cc =>
    match cc.state with
    | none => st
    | some sd =>
      match sd.ums_conversation_id with
      | some cid => if cid = "" then mergeGpa st sd else { st with ums_conversation_id := some cid }
      | none => mergeGpa st sd

/-- The `TaskResult` recorded for one executed subtask: the success shape on
a normal return, the caught-exception shape (`success=False`, empty content,
stringified error) otherwise. -/
def execEntry (gpa : GpaOracle) (ums : UmsOracle) (st : CoordState)
    (t : Subtask) (context : Option String) : TaskResult :=
  match callAgent gpa ums st t context with
  | .ok msg => ⟨t, ⟨t.task_id, t.agent_name, msg.content, true, none⟩⟩
  | .error e => ⟨t, ⟨t.task_id, t.agent_name, "", false, some e.str⟩⟩

/-- The `for task_id in execution_order:` loop of `_execute_subtasks`:
resolve context, call the agent inside the per-task `try`, record either the
success result (after merging returned state) or the caught failure, and
continue with the remaining order. -/
def execLoop (gpa : GpaOracle) (ums : UmsOracle) (subtasks : List Subtask) :
    List Nat → List (Nat × TaskResult) → CoordState →
    Except PyExn (List (Nat × TaskResult) × CoordState)
  | [], results, st => .ok (results, st)
  | tid :: rest, results, st =>
    match lookupById subtasks tid with
    | none => .error (.keyError tid)
    | some t =>
      let context := gatherContext t results
      match callAgent gpa ums st t context with
      | .ok msg =>
        execLoop gpa ums subtasks rest
          (dinsert tid ⟨t, ⟨t.task_id, t.agent_name, msg.content, true, none⟩⟩ results)
          (mergeState st msg)
      | .error e =>
        execLoop gpa ums subtasks rest
          (dinsert tid ⟨t, ⟨t.task_id, t.agent_name, "", false, some e.str⟩⟩ results)
          st

/-- `MASCoordinator._execute_subtasks`: schedule the wave, run the loop, and
return `list(results.values())` (insertion order) with the updated
accumulators.  A `KeyError` from the scheduler propagates: the loop is not
inside any `try`. -/
def _execute_subtasks (gpa : GpaOracle) (ums : UmsOracle)
    (subtasks : List Subtask) (st : CoordState) :
    Except PyExn (List TaskResult × CoordState) :=
  match _topological_sort subtasks with
  | .error e => .error e
  | .ok order =>
    match execLoop gpa ums subtasks order [] st with
    | .error e => .error e
    | .ok (results, st') => .ok (results.map (·.2), st')

/-! ## Decomposition Driver and aggregation (`MASCoordinator.handle_request`) -/

/-- The decomposition collaborator: a black box of the number of calls made
so far and the accumulated task results (the serialized block of prior
results is what varies between rounds in the prompt it receives). -/
def DecompOracle : Type := Nat → List TaskResult → TaskDecomposition

/-- The aggregation collaborator: a black box of the accumulated task
results, returning the final streamed content. -/
def AggOracle : Type := List TaskResult → String

deriving instance DecidableEq for Except

/-- Observable outcome of the round loop: the number of decomposition calls
made, the waves handed to the executor, and either the accumulated results
with the final coordinator state or the propagated exception. -/
structure RunResult where
  calls : Nat
  execLog : List (List Subtask)
  outcome : Except PyExn (List TaskResult × CoordState)
deriving DecidableEq

/-- The `while task_calls < max_task_calls:` loop of `handle_request`:
increment the counter, call the decomposition collaborator, stop on an empty
subtask list or a set stop flag, otherwise execute the wave (propagating an
executor exception) and accumulate its results. -/
def roundLoop (decomp : DecompOracle) (gpa : GpaOracle) (ums : UmsOracle) :
    Nat → Nat → List (List Subtask) → List TaskResult → CoordState → RunResult
  | 0, calls, log, acc, st => ⟨calls, log, .ok (acc, st)⟩
  | budget + 1, calls, log, acc, st =>
    let d := decomp calls acc
    if d.subtasks.isEmpty || d.stop then ⟨calls + 1, log, .ok (acc, st)⟩
    else
      match _execute_subtasks gpa ums d.subtasks st with
      | .error e => ⟨calls + 1, log ++ [d.subtasks], .error e⟩
      | .ok (res, st') =>
        roundLoop decomp gpa ums budget (calls + 1) (log ++ [d.subtasks]) (acc ++ res) st'

/-- Observable outcome of `handle_request`: decomposition calls, executed
waves, the aggregated final content (or the propagated exception), the
accumulated results, and the state dict written by `choice.set_state`. -/
structure HandleResult where
  calls : Nat
  execLog : List (List Subtask)
  final : Except PyExn String
  results : List TaskResult
  persisted : Option StateDict
deriving DecidableEq

/-- `MASCoordinator.handle_request`: run up to `max_task_calls = 10` rounds,
then aggregate the accumulated results and persist the session state
(`GPA_MESSAGES` and `UMS_CONVERSATION_ID`) on the outgoing turn. -/
def handle_request (decomp : DecompOracle) (gpa : GpaOracle) (ums : UmsOracle)
    (agg : AggOracle) (st0 : CoordState) : HandleResult :=
  let r := roundLoop decomp gpa ums 10 0 [] [] st0
  match r.outcome with
  | .error e => ⟨r.calls, r.execLog, .error e, [], none⟩
  | .ok (acc, st) =>
    ⟨r.calls, r.execLog, .ok (agg acc), acc,
      some ⟨st.ums_conversation_id, some st.gpa_intermediate_state⟩⟩

/-! ## Concrete inputs used by witness and counterexample theorems -/

/-- A dependency-free GPA subtask. -/
def wSubGpa : Subtask := ⟨1, "gpa", "alpha", none⟩

/-- A GPA subtask depending on task 1. -/
def wSubDep : Subtask := ⟨2, "gpa", "beta", some 1⟩

/-- A UMS subtask. -/
def wSubUms : Subtask := ⟨3, "ums", "gamma", none⟩

/-- A subtask naming an unknown agent capability. -/
def wSubUnknown : Subtask := ⟨1, "search", "find docs", none⟩

/-- A subtask that depends on itself. -/
def wSubSelf : Subtask := ⟨2, "gpa", "loop", some 2⟩

/-- A subtask depending on the self-dependent task. -/
def wSubChild : Subtask := ⟨3, "gpa", "child", some 2⟩

/-- A GPA gateway that always answers. -/
def wGpaOk : GpaOracle := fun instr _ => .ok ⟨"ok: " ++ instr, none⟩

/-- A GPA gateway that always raises. -/
def wGpaBoom : GpaOracle := fun _ _ => .error (.other "boom")

/-- A GPA gateway raising an exception whose stringification is empty
(Python: `raise Exception()`, for which `str(e)` is `""`). -/
def wGpaEmptyBoom : GpaOracle := fun _ _ => .error (.other "")

/-- A UMS gateway body (never reached by the embedded call). -/
def wUms : UmsOracle := fun _ _ => .ok ⟨"unreachable", none⟩

/-- The fresh coordinator state. -/
def wState : CoordState := ⟨[], none⟩

/-- A message persisting the UMS conversation id "abc". -/
def wMsgAbc : Message := ⟨"", some ⟨some ⟨some "abc", none⟩⟩⟩

/-- A message persisting the UMS conversation id "def". -/
def wMsgDef : Message := ⟨"", some ⟨some ⟨some "def", none⟩⟩⟩

/-- A message with no custom content. -/
def wMsgPlain : Message := ⟨"hello", none⟩

/-- A decomposition collaborator that immediately returns no subtasks. -/
def wDecompStop : DecompOracle := fun _ _ => ⟨[], false⟩

/-- An aggregation collaborator reporting whether any results exist. -/
def wAgg : AggOracle := fun rs => if rs.isEmpty then "empty" else "nonempty"

/-! # Theorems -/

/-! ## Session State Recovery lemmas -/

-- One step of the history scan: the head message is examined with the
-- per-message test, and the scan continues on a falsy result.
theorem getUms_cons (m : Message) (rest : List Message) :
    getUmsConversationId (m :: rest) =
      (match msgUmsId m with
       | some s => some s
       | none => getUmsConversationId rest) := by
  rcases m with ⟨c, cc⟩
  cases cc with
  | none => rfl
  | some cc =>
    cases cc with
    | mk sd =>
      cases sd with
      | none => rfl
      | some sd =>
        cases sd with
        | mk uid g =>
          cases uid with
          | none => rfl
          | some s =>
            by_cases h : s = "" <;> simp [getUmsConversationId, msgUmsId, h]

-- The per-message test only returns non-empty identifiers.
theorem msgUmsId_ne_empty {m : Message} {s : String} (h : msgUmsId m = some s) : s ≠ "" := by
  rcases m with ⟨c, cc⟩
  cases cc with
  | none => simp [msgUmsId] at h
  | some cc =>
    cases cc with
    | mk sd =>
      cases sd with
      | none => simp [msgUmsId] at h
      | some sd =>
        cases sd with
        | mk uid g =>
          cases uid with
          | none => simp [msgUmsId] at h
          | some s' =>
            by_cases he : s' = "" <;> simp [msgUmsId, he] at h
            subst h; exact he

/-- C2 (counterexample): with two prior writes "abc" then "def", the most
recently persisted identifier is "def", but `__get_ums_conversation_id`
scans the history from the start and returns "abc" — recovery does not
return the most recently persisted identifier. -/
theorem c2_earliest_not_most_recent_counterexample :
    getUmsConversationId [wMsgAbc, wMsgDef] = some "abc" ∧
    specMostRecentUmsId [wMsgAbc, wMsgDef] = some "def" ∧
    getUmsConversationId [wMsgAbc, wMsgDef] ≠ specMostRecentUmsId [wMsgAbc, wMsgDef] := by
  refine ⟨by decide, by decide, by decide⟩

/-- C2 (amended): for every incoming message history in which at least one
message carries a persisted UMS session identifier, Session State Recovery
returns the EARLIEST persisted identifier — the one on the first message of
the history that carries a truthy identifier (in particular, with exactly
one prior write of "abc" it returns "abc") — and new-session creation is not
triggered. -/
theorem c2_recovery_amended (pre : List Message) (m : Message) (post : List Message)
    (s : String) (hm : msgUmsId m = some s) (hpre : ∀ m' ∈ pre, msgUmsId m' = none) :
    getUmsConversationId (pre ++ m :: post) = some s ∧
    umsNewSessionTriggered (pre ++ m :: post) = false := by
  have hget : getUmsConversationId (pre ++ m :: post) = some s := by
    induction pre with
    | nil => simp [getUms_cons, hm]
    | cons m' pre ih =>
      have h' : msgUmsId m' = none := hpre m' (by simp)
      rw [List.cons_append, getUms_cons, h']
      exact ih (fun x hx => hpre x (by simp [hx]))
  refine ⟨hget, ?_⟩
  unfold umsNewSessionTriggered
  rw [hget]
  simp [msgUmsId_ne_empty hm]

/-- Witness for C2 (amended): a history with exactly one prior write of
"abc" (preceded by a plain message) recovers "abc" and does not trigger
new-session creation. -/
theorem c2_recovery_amended_witness :
    getUmsConversationId [wMsgPlain, wMsgAbc] = some "abc" ∧
    umsNewSessionTriggered [wMsgPlain, wMsgAbc] = false :=
  c2_recovery_amended [wMsgPlain] wMsgAbc [] "abc" (by decide)
    (by intro m' h; fin_cases h; decide)

/-! ## Round loop: cap and stop condition -/

-- Each round-loop iteration makes exactly one decomposition call, so the
-- total never exceeds the starting count plus the remaining budget.
theorem roundLoop_calls_le (decomp : DecompOracle) (gpa : GpaOracle) (ums : UmsOracle) :
    ∀ (budget calls : Nat) (log : List (List Subtask)) (acc : List TaskResult) (st : CoordState),
      (roundLoop decomp gpa ums budget calls log acc st).calls ≤ calls + budget := by
  intro budget
  induction budget with
  | zero => intro calls log acc st; simp [roundLoop]
  | succ b ih =>
    intro calls log acc st
    unfold roundLoop
    dsimp only
    split
    · simp
    · split
      · simp
      · exact le_trans (ih (calls + 1) _ _ _) (by omega)

/-- C5: for every behavior of the decomposition collaborator (and of the
gateways and the aggregator), `handle_request`'s round loop makes at most 10
decomposition calls before proceeding to aggregation. -/
theorem c5_round_cap (decomp : DecompOracle) (gpa : GpaOracle) (ums : UmsOracle)
    (agg : AggOracle) (st0 : CoordState) :
    (handle_request decomp gpa ums agg st0).calls ≤ 10 := by
  have h := roundLoop_calls_le decomp gpa ums 10 0 [] [] st0
  cases hr : (roundLoop decomp gpa ums 10 0 [] [] st0).outcome with
  | error e => simp [handle_request, hr]; omega
  | ok p => obtain ⟨acc, st⟩ := p; simp [handle_request, hr]; omega

/-- C7: if on any round (including round 1) the decomposition result has an
empty subtask list or its stop flag is true, the round loop ends immediately
— one more decomposition call, no executor invocation, results unchanged —
the Result Aggregator is always invoked on whatever results the finished
loop accumulated, and in particular when the stop happens on round 1,
`handle_request` aggregates zero `TaskResult`s. -/
theorem c7_stop_ends_loop (decomp : DecompOracle) (gpa : GpaOracle) (ums : UmsOracle)
    (agg : AggOracle) :
    (∀ (budget calls : Nat) (log : List (List Subtask)) (acc : List TaskResult)
        (st : CoordState),
      ((decomp calls acc).subtasks = [] ∨ (decomp calls acc).stop = true) →
      roundLoop decomp gpa ums (budget + 1) calls log acc st = ⟨calls + 1, log, .ok (acc, st)⟩) ∧
    (∀ (st0 : CoordState) (acc : List TaskResult) (st : CoordState),
      (roundLoop decomp gpa ums 10 0 [] [] st0).outcome = .ok (acc, st) →
      (handle_request decomp gpa ums agg st0).final = .ok (agg acc) ∧
      (handle_request decomp gpa ums agg st0).results = acc) ∧
    (∀ st0 : CoordState,
      ((decomp 0 []).subtasks = [] ∨ (decomp 0 []).stop = true) →
      handle_request decomp gpa ums agg st0 =
        ⟨1, [], .ok (agg []), [],
          some ⟨st0.ums_conversation_id, some st0.gpa_intermediate_state⟩⟩) := by
  have hstep : ∀ (budget calls : Nat) (log : List (List Subtask)) (acc : List TaskResult)
      (st : CoordState),
      ((decomp calls acc).subtasks = [] ∨ (decomp calls acc).stop = true) →
      roundLoop decomp gpa ums (budget + 1) calls log acc st = ⟨calls + 1, log, .ok (acc, st)⟩ := by
    intro budget calls log acc st h
    have hb : ((decomp calls acc).subtasks.isEmpty || (decomp calls acc).stop) = true := by
      rcases h with h | h <;> simp [h]
    unfold roundLoop
    dsimp only
    split
    · rfl
    · rename_i hc; exact absurd hb hc
  refine ⟨hstep, ?_, ?_⟩
  · intro st0 acc st houtcome
    constructor <;> simp [handle_request, houtcome]
  · intro st0 h
    have h10 : roundLoop decomp gpa ums 10 0 [] [] st0 = ⟨1, [], .ok ([], st0)⟩ :=
      hstep 9 0 [] [] st0 h
    unfold handle_request
    rw [h10]

/-- Witness for C7: a collaborator returning `{subtasks: [], stop: false}` on
round 1 ends the loop after one call with zero task results, and aggregation
is still invoked (producing the aggregate of the empty result list). -/
theorem c7_stop_ends_loop_witness :
    handle_request wDecompStop wGpaOk wUms wAgg wState =
      ⟨1, [], .ok "empty", [], some ⟨none, some []⟩⟩ :=
  (c7_stop_ends_loop wDecompStop wGpaOk wUms wAgg).2.2 wState (Or.inl rfl)

/-! ## Context resolution -/

/-- C6: context resolution returns no context when `depends_on` is `None`;
returns no context when the dependency's recorded execution is missing or
did not succeed (and the dependent's instruction is then its bare
description); and returns the dependency's `TaskResult` serialized verbatim
when the dependency succeeded. -/
theorem c6_context_resolution (subtask : Subtask) (results : List (Nat × TaskResult)) :
    (subtask.depends_on = none → gatherContext subtask results = none) ∧
    (∀ d, subtask.depends_on = some d →
      (dlookup d results = none ∨
        ∃ tr, dlookup d results = some tr ∧ tr.agent_result.success = false) →
      gatherContext subtask results = none ∧
        instructionFor subtask.task_description (gatherContext subtask results) =
          subtask.task_description) ∧
    (∀ d tr, subtask.depends_on = some d → dlookup d results = some tr →
      tr.agent_result.success = true →
      gatherContext subtask results = some (serializeTaskResult tr)) := by
  refine ⟨?_, ?_, ?_⟩
  · intro h; simp [gatherContext, h]
  · intro d hd hfail
    have hnone : gatherContext subtask results = none := by
      rcases hfail with h | ⟨tr, h, hs⟩
      · simp [gatherContext, hd, h]
      · simp [gatherContext, hd, h, hs]
    exact ⟨hnone, by simp [hnone, instructionFor]⟩
  · intro d tr hd hl hs
    simp [gatherContext, hd, hl, hs]

/-- Witness for C6: a dependent whose dependency is recorded as failed gets
no context and executes with its bare description; the same dependent with a
successful dependency gets the serialized `TaskResult`. -/
theorem c6_context_resolution_witness :
    (gatherContext wSubDep [(1, ⟨wSubGpa, ⟨1, "gpa", "", false, some "boom"⟩⟩)] = none ∧
      instructionFor wSubDep.task_description
        (gatherContext wSubDep [(1, ⟨wSubGpa, ⟨1, "gpa", "", false, some "boom"⟩⟩)]) =
        wSubDep.task_description) ∧
    gatherContext wSubDep [(1, ⟨wSubGpa, ⟨1, "gpa", "done", true, none⟩⟩)] =
      some (serializeTaskResult ⟨wSubGpa, ⟨1, "gpa", "done", true, none⟩⟩) :=
  ⟨(c6_context_resolution wSubDep _).2.1 1 rfl
      (Or.inr ⟨⟨wSubGpa, ⟨1, "gpa", "", false, some "boom"⟩⟩, by decide, rfl⟩),
    (c6_context_resolution wSubDep _).2.2 1 ⟨wSubGpa, ⟨1, "gpa", "done", true, none⟩⟩ rfl
      (by decide) rfl⟩

/-! ## Executor entry characterization -/

-- Dict assignment only ever produces the assigned pair or a pre-existing one.
theorem mem_dinsert {k : Nat} {v : TaskResult} :
    ∀ (l : List (Nat × TaskResult)) (x : Nat × TaskResult),
      x ∈ dinsert k v l → x = (k, v) ∨ x ∈ l := by
  intro l
  induction l with
  | nil => intro x h; simp [dinsert] at h; exact Or.inl h
  | cons hd tl ih =>
    intro x h
    obtain ⟨k₀, v₀⟩ := hd
    by_cases hk : k₀ = k
    · subst hk
      simp only [dinsert, if_pos rfl, eq_self_iff_true, if_true, List.mem_cons] at h
      rcases h with h | h
      · exact Or.inl h
      · exact Or.inr (List.mem_cons_of_mem _ h)
    · simp only [dinsert, if_neg hk, List.mem_cons] at h
      rcases h with h | h
      · exact Or.inr (by simp [h])
      · rcases ih x h with h' | h'
        · exact Or.inl h'
        · exact Or.inr (List.mem_cons_of_mem _ h')

-- Assignment to a fresh key appends the pair at the end.
theorem dinsert_eq_append {k : Nat} (v : TaskResult) :
    ∀ (l : List (Nat × TaskResult)), k ∉ l.map Prod.fst → dinsert k v l = l ++ [(k, v)] := by
  intro l
  induction l with
  | nil => intro _; rfl
  | cons hd tl ih =>
    intro h
    obtain ⟨k₀, v₀⟩ := hd
    simp only [List.map_cons, List.mem_cons] at h
    push_neg at h
    simp only [dinsert, List.cons_append]
    rw [if_neg (fun hh : k₀ = k => h.1 hh.symm), ih h.2]

-- The result recorded by one loop step always pairs the looked-up subtask
-- with an `AgentResult` carrying that subtask's id and agent name.
theorem execEntry_task (gpa : GpaOracle) (ums : UmsOracle) (st : CoordState)
    (t : Subtask) (context : Option String) :
    (execEntry gpa ums st t context).task = t ∧
    (execEntry gpa ums st t context).agent_result.task_id = t.task_id ∧
    (execEntry gpa ums st t context).agent_result.agent_name = t.agent_name := by
  unfold execEntry
  cases callAgent gpa ums st t context <;> exact ⟨rfl, rfl, rfl⟩

-- Dispatch for a UMS-named subtask: the keyword binding of the source call
-- site fails before the gateway body could run, for every context and state.
theorem callAgent_ums (gpa : GpaOracle) (ums : UmsOracle) (st : CoordState)
    {t : Subtask} (h : t.agent_name = AgentNameUMS) (context : Option String) :
    callAgent gpa ums st t context =
      .error (.typeError "response() got an unexpected keyword argument: task_description") := by
  unfold callAgent
  rw [h]
  have hne : AgentNameUMS ≠ AgentNameGPA := by decide
  rw [if_neg hne, if_pos rfl]
  rfl

-- Dispatch for an unknown agent name raises `ValueError`, for every context
-- and state.
theorem callAgent_unknown (gpa : GpaOracle) (ums : UmsOracle) (st : CoordState)
    {t : Subtask} (hg : t.agent_name ≠ AgentNameGPA) (hu : t.agent_name ≠ AgentNameUMS)
    (context : Option String) :
    callAgent gpa ums st t context =
      .error (.valueError ("Unknown agent: " ++ t.agent_name)) := by
  unfold callAgent
  rw [if_neg hg, if_neg hu]

-- Every entry of a successfully finished executor loop is either inherited
-- from the starting dict or is the recorded outcome of one agent call on the
-- subtask looked up for its key.
theorem execLoop_entries (gpa : GpaOracle) (ums : UmsOracle) (subtasks : List Subtask) :
    ∀ (order : List Nat) (results : List (Nat × TaskResult)) (st : CoordState)
      (out : List (Nat × TaskResult)) (st2 : CoordState),
      execLoop gpa ums subtasks order results st = .ok (out, st2) →
      ∀ k tr, (k, tr) ∈ out → (k, tr) ∈ results ∨
        (k ∈ order ∧
          ∃ u context s, lookupById subtasks k = some u ∧ tr = execEntry gpa ums s u context) := by
  intro order
  induction order with
  | nil =>
    intro results st out st2 h k tr hmem
    simp only [execLoop, Except.ok.injEq, Prod.mk.injEq] at h
    rw [← h.1] at hmem
    exact Or.inl hmem
  | cons tid rest ih =>
    intro results st out st2 h k tr hmem
    unfold execLoop at h
    cases hlk : lookupById subtasks tid with
    | none => rw [hlk] at h; exact absurd h (by simp)
    | some u =>
      rw [hlk] at h
      dsimp only at h
      cases hc : callAgent gpa ums st u (gatherContext u results) with
      | ok msg =>
        rw [hc] at h
        rcases ih _ _ _ _ h k tr hmem with hmem' | hfound
        · rcases mem_dinsert _ _ hmem' with heq | hold
          · rw [Prod.mk.injEq] at heq
            obtain ⟨hk, htr2⟩ := heq
            subst hk
            refine Or.inr ⟨List.mem_cons_self _ _, u, gatherContext u results, st, hlk, ?_⟩
            rw [htr2]; unfold execEntry; rw [hc]
          · exact Or.inl hold
        · exact Or.inr ⟨List.mem_cons_of_mem _ hfound.1, hfound.2⟩
      | error e =>
        rw [hc] at h
        rcases ih _ _ _ _ h k tr hmem with hmem' | hfound
        · rcases mem_dinsert _ _ hmem' with heq | hold
          · rw [Prod.mk.injEq] at heq
            obtain ⟨hk, htr2⟩ := heq
            subst hk
            refine Or.inr ⟨List.mem_cons_self _ _, u, gatherContext u results, st, hlk, ?_⟩
            rw [htr2]; unfold execEntry; rw [hc]
          · exact Or.inl hold
        · exact Or.inr ⟨List.mem_cons_of_mem _ hfound.1, hfound.2⟩

/-- C9: the coordinator's UMS gateway invocation passes keyword arguments
(`task_description`, `ums_conversation_id`) that are not parameters of
`UMSAgentGateway.response` (which expects `choice` and
`additional_instructions` instead), so the call raises `TypeError`; the
per-subtask boundary catches it and records `success = false` with empty
content and the stringified `TypeError` — a UMS subtask can never succeed. -/
theorem c9_ums_binding_type_error :
    bindKwargs umsResponseParams umsCallKwargs =
      .error (.typeError "response() got an unexpected keyword argument: task_description") ∧
    ∀ (gpa : GpaOracle) (ums : UmsOracle) (subtasks : List Subtask) (st : CoordState)
      (out : List TaskResult) (st2 : CoordState),
      _execute_subtasks gpa ums subtasks st = .ok (out, st2) →
      ∀ tr ∈ out, tr.task.agent_name = AgentNameUMS →
        tr.agent_result.success = false ∧ tr.agent_result.content = "" ∧
        tr.agent_result.error =
          some "response() got an unexpected keyword argument: task_description" := by
  refine ⟨by decide, ?_⟩
  intro gpa ums subtasks st out st2 hok tr htr hums
  unfold _execute_subtasks at hok
  cases hts : _topological_sort subtasks with
  | error e => rw [hts] at hok; exact absurd hok (by simp)
  | ok order =>
    rw [hts] at hok
    dsimp only at hok
    cases hl : execLoop gpa ums subtasks order [] st with
    | error e => rw [hl] at hok; exact absurd hok (by simp)
    | ok p =>
      obtain ⟨res, st'⟩ := p
      rw [hl] at hok
      simp only [Except.ok.injEq, Prod.mk.injEq] at hok
      obtain ⟨hout, hst⟩ := hok
      rw [← hout] at htr
      have : tr ∈ res.map (·.2) := htr
      obtain ⟨⟨k, tr'⟩, hk, htr'⟩ := List.mem_map.mp this
      dsimp only at htr'
      subst htr'
      rcases execLoop_entries gpa ums subtasks order [] st res st' hl k tr' hk with h0 | hfound
      · exact absurd h0 (List.not_mem_nil _)
      · obtain ⟨hkord, u, context, s, hlu, hentry⟩ := hfound
        have htask : tr'.task = u := hentry ▸ (execEntry_task gpa ums s u context).1
        have hu : u.agent_name = AgentNameUMS := by rw [← htask]; exact hums
        have hcall := callAgent_ums gpa ums s (t := u) hu context
        rw [hentry]
        unfold execEntry
        rw [hcall]
        exact ⟨rfl, rfl, rfl⟩

/-- Witness for C9: a wave holding one UMS subtask executes to a recorded
per-task failure whose error is the keyword-binding `TypeError` text. -/
theorem c9_ums_binding_type_error_witness :
    (⟨wSubUms, ⟨3, "ums", "", false,
        some "response() got an unexpected keyword argument: task_description"⟩⟩ :
        TaskResult).agent_result.success = false ∧
    (⟨wSubUms, ⟨3, "ums", "", false,
        some "response() got an unexpected keyword argument: task_description"⟩⟩ :
        TaskResult).agent_result.content = "" ∧
    (⟨wSubUms, ⟨3, "ums", "", false,
        some "response() got an unexpected keyword argument: task_description"⟩⟩ :
        TaskResult).agent_result.error =
      some "response() got an unexpected keyword argument: task_description" :=
  c9_ums_binding_type_error.2 wGpaOk wUms [wSubUms] wState
    [⟨wSubUms, ⟨3, "ums", "", false,
      some "response() got an unexpected keyword argument: task_description"⟩⟩]
    wState (by decide)
    ⟨wSubUms, ⟨3, "ums", "", false,
      some "response() got an unexpected keyword argument: task_description"⟩⟩
    (by decide) (by decide)

/-! ## Dangling dependency (scheduler `KeyError`) -/

-- If some subtask declares a dependency outside the id set, the scheduler's
-- validation finds one (the first in list order) and reports its id.
theorem hasDanglingDep_of_exists (subtasks : List Subtask)
    (h : ∃ t ∈ subtasks, ∃ d, t.depends_on = some d ∧ d ∉ taskIds subtasks) :
    ∃ d, hasDanglingDep subtasks = some d ∧
      ∃ t ∈ subtasks, t.depends_on = some d ∧ d ∉ taskIds subtasks := by
  obtain ⟨t₀, ht₀, d₀, hd₀, hnot₀⟩ := h
  have hp : (subtasks.find? (fun t =>
      match t.depends_on with
      | some d => !((taskIds subtasks).contains d)
      | none => false)).isSome := by
    rw [List.find?_isSome]
    exact ⟨t₀, ht₀, by simp [hd₀, hnot₀]⟩
  obtain ⟨t, ht⟩ := Option.isSome_iff_exists.mp hp
  have htp := List.find?_some ht
  have htm := List.mem_of_find?_eq_some ht
  cases hdep : t.depends_on with
  | none => rw [hdep] at htp; exact absurd htp (by simp)
  | some d =>
    rw [hdep] at htp
    simp only [Bool.not_eq_true'] at htp
    refine ⟨d, ?_, t, htm, hdep, ?_⟩
    · unfold hasDanglingDep
      rw [ht]
      dsimp only
      exact hdep
    · intro hmem
      have hc : (taskIds subtasks).contains d = true := List.elem_eq_true_of_mem hmem
      rw [htp] at hc
      exact absurd hc (by simp)

/-- C10: for every subtask list containing a task whose `depends_on` names a
task id not present in that list, the scheduler raises an uncaught `KeyError`
while building the adjacency map, so the executor call aborts (for every
gateway behavior and state) before executing any subtask of the wave. -/
theorem c10_dangling_dep_key_error (subtasks : List Subtask)
    (h : ∃ t ∈ subtasks, ∃ d, t.depends_on = some d ∧ d ∉ taskIds subtasks) :
    ∃ d, (∃ t ∈ subtasks, t.depends_on = some d ∧ d ∉ taskIds subtasks) ∧
      _topological_sort subtasks = .error (.keyError d) ∧
      ∀ (gpa : GpaOracle) (ums : UmsOracle) (st : CoordState),
        _execute_subtasks gpa ums subtasks st = .error (.keyError d) := by
  obtain ⟨d, hdang, hwit⟩ := hasDanglingDep_of_exists subtasks h
  have hts : _topological_sort subtasks = .error (.keyError d) := by
    unfold _topological_sort
    rw [hdang]
  exact ⟨d, hwit, hts, fun gpa ums st => by unfold _execute_subtasks; rw [hts]⟩

/-- Witness for C10: a single subtask depending on the absent id 99 makes the
scheduler, and hence the executor call, raise `KeyError(99)`. -/
theorem c10_dangling_dep_key_error_witness :
    ∃ d, (∃ t ∈ [(⟨1, "gpa", "x", some 99⟩ : Subtask)], t.depends_on = some d ∧
        d ∉ taskIds [(⟨1, "gpa", "x", some 99⟩ : Subtask)]) ∧
      _topological_sort [(⟨1, "gpa", "x", some 99⟩ : Subtask)] = .error (.keyError d) ∧
      ∀ (gpa : GpaOracle) (ums : UmsOracle) (st : CoordState),
        _execute_subtasks gpa ums [(⟨1, "gpa", "x", some 99⟩ : Subtask)] st =
          .error (.keyError d) :=
  c10_dangling_dep_key_error [⟨1, "gpa", "x", some 99⟩]
    ⟨⟨1, "gpa", "x", some 99⟩, by decide, 99, rfl, by decide⟩

/-! ## Unknown agent capability (C1) -/

/-- C1 (counterexample): a wave holding one subtask with the unknown agent
name "search" does NOT fail the executor call as a whole: the `ValueError`
raised inside `_call_agent` is caught by the per-subtask `try`, the executor
returns normally, and the unknown-agent error is recorded as that one task's
per-task failure. -/
theorem c1_unknown_agent_not_fatal_counterexample :
    _execute_subtasks wGpaOk wUms [wSubUnknown] wState =
      .ok ([⟨wSubUnknown, ⟨1, "search", "", false, some "Unknown agent: search"⟩⟩], wState) ∧
    ∀ e : PyExn, _execute_subtasks wGpaOk wUms [wSubUnknown] wState ≠ .error e := by
  have h : _execute_subtasks wGpaOk wUms [wSubUnknown] wState =
      .ok ([⟨wSubUnknown, ⟨1, "search", "", false, some "Unknown agent: search"⟩⟩], wState) := by
    decide
  exact ⟨h, fun e he => Except.noConfusion (h.symm.trans he)⟩

/-! ## Scheduler basics: sorting, id lookup, adjacency -/

-- Inserting into the sorted model is a permutation of consing.
theorem insertSorted_perm (x : Nat) : ∀ l : List Nat, (insertSorted x l).Perm (x :: l) := by
  intro l
  induction l with
  | nil => simp [insertSorted]
  | cons y ys ih =>
    by_cases h : x ≤ y
    · simp [insertSorted, h]
    · simp only [insertSorted, if_neg h]
      exact (List.Perm.cons y ih).trans (List.Perm.swap x y ys)

-- The sorted model is a permutation of its input.
theorem sortNat_perm : ∀ l : List Nat, (sortNat l).Perm l := by
  intro l
  induction l with
  | nil => simp [sortNat]
  | cons x xs ih =>
    exact (insertSorted_perm x (sortNat xs)).trans (List.Perm.cons x ih)

-- First match of the id predicate under nodup ids is the task itself.
theorem find?_id_eq : ∀ (l : List Subtask), (l.map (·.task_id)).Nodup →
    ∀ t ∈ l, l.find? (fun u => u.task_id == t.task_id) = some t := by
  intro l
  induction l with
  | nil => intro _ t ht; exact absurd ht (List.not_mem_nil t)
  | cons u rest ih =>
    intro hnd t ht
    simp only [List.map_cons, List.nodup_cons] at hnd
    by_cases hu : u.task_id = t.task_id
    · have hteq : t = u := by
        rcases List.mem_cons.mp ht with h | h
        · exact h
        · exfalso
          apply hnd.1
          rw [hu]
          exact List.mem_map_of_mem (·.task_id) h
      rw [hteq]
      exact List.find?_cons_of_pos rest (by simp)
    · have htr : t ∈ rest := by
        rcases List.mem_cons.mp ht with h | h
        · exact absurd (congrArg (·.task_id) h).symm hu
        · exact h
      rw [List.find?_cons_of_neg rest (by simp [hu])]
      exact ih hnd.2 t htr

-- Under nodup ids, `subtasks_by_id` lookup of a member's id is that member.
theorem lookupById_eq {subtasks : List Subtask} (hnd : (taskIds subtasks).Nodup)
    {t : Subtask} (ht : t ∈ subtasks) : lookupById subtasks t.task_id = some t := by
  unfold lookupById
  have hnd' : (subtasks.reverse.map (·.task_id)).Nodup := by
    rw [List.map_reverse, List.nodup_reverse]
    exact hnd
  exact find?_id_eq subtasks.reverse hnd' t (List.mem_reverse.mpr ht)

-- A successful lookup returns a member carrying the looked-up id.
theorem lookupById_mem {subtasks : List Subtask} {k : Nat} {u : Subtask}
    (h : lookupById subtasks k = some u) : u ∈ subtasks ∧ u.task_id = k := by
  unfold lookupById at h
  refine ⟨List.mem_reverse.mp (List.mem_of_find?_eq_some h), ?_⟩
  have := List.find?_some h
  simpa using this

-- The looked-up dependency of a member's id is that member's `depends_on`.
theorem parentOf_eq {subtasks : List Subtask} (hnd : (taskIds subtasks).Nodup)
    {t : Subtask} (ht : t ∈ subtasks) : parentOf subtasks t.task_id = t.depends_on := by
  unfold parentOf
  rw [lookupById_eq hnd ht]

-- Ids with the same value denote the same member under nodup ids.
theorem id_inj {subtasks : List Subtask} (hnd : (taskIds subtasks).Nodup)
    {u t : Subtask} (hu : u ∈ subtasks) (ht : t ∈ subtasks)
    (h : u.task_id = t.task_id) : u = t :=
  List.inj_on_of_nodup_map hnd hu ht h

-- The initial unresolved-dependency count of a member id is one exactly when
-- that member declares a dependency.
theorem parentCount0_eq {subtasks : List Subtask} (hnd : (taskIds subtasks).Nodup)
    {x : Nat} (hx : x ∈ taskIds subtasks) :
    parentCount0 subtasks x = if (parentOf subtasks x).isSome then 1 else 0 := by
  obtain ⟨t, ht, htx⟩ := List.mem_map.mp hx
  subst htx
  rw [parentOf_eq hnd ht]
  unfold parentCount0
  by_cases hdep : t.depends_on.isSome
  · rw [if_pos, if_pos hdep]
    rw [List.any_eq_true]
    exact ⟨t, ht, by simp [hdep]⟩
  · rw [if_neg, if_neg hdep]
    rw [List.any_eq_true]
    rintro ⟨u, hu, hp⟩
    simp only [Bool.and_eq_true, beq_iff_eq] at hp
    exact hdep (id_inj hnd hu ht hp.1 ▸ hp.2)

-- Membership in an adjacency entry, characterized through the id views.
theorem childrenOf_mem {subtasks : List Subtask} (hnd : (taskIds subtasks).Nodup)
    {c d : Nat} :
    c ∈ childrenOf subtasks d ↔ c ∈ taskIds subtasks ∧ parentOf subtasks c = some d := by
  constructor
  · intro h
    obtain ⟨u, hu, huc⟩ := List.mem_map.mp h
    obtain ⟨hum, hup⟩ := List.mem_filter.mp hu
    subst huc
    refine ⟨List.mem_map_of_mem _ hum, ?_⟩
    rw [parentOf_eq hnd hum]
    simpa using hup
  · rintro ⟨hc, hp⟩
    obtain ⟨u, hu, huc⟩ := List.mem_map.mp hc
    subst huc
    rw [parentOf_eq hnd hu] at hp
    exact List.mem_map_of_mem _ (List.mem_filter.mpr ⟨hu, by simp [hp]⟩)

-- Adjacency entries inherit nodup from the id set.
theorem childrenOf_nodup {subtasks : List Subtask} (hnd : (taskIds subtasks).Nodup)
    (d : Nat) : (childrenOf subtasks d).Nodup := by
  unfold childrenOf
  unfold taskIds at hnd
  exact List.Nodup.sublist (List.Sublist.map (·.task_id) (List.filter_sublist subtasks)) hnd

-- The seed queue holds exactly the member ids with zero initial count.
theorem seedQueue_mem {subtasks : List Subtask} {x : Nat} :
    x ∈ seedQueue subtasks ↔ x ∈ taskIds subtasks ∧ parentCount0 subtasks x = 0 := by
  constructor
  · intro h
    obtain ⟨u, hu, hux⟩ := List.mem_map.mp h
    obtain ⟨hum, hup⟩ := List.mem_filter.mp hu
    subst hux
    exact ⟨List.mem_map_of_mem _ hum, by simpa using hup⟩
  · rintro ⟨hx, hz⟩
    obtain ⟨u, hu, hux⟩ := List.mem_map.mp hx
    subst hux
    exact List.mem_map_of_mem _ (List.mem_filter.mpr ⟨hu, by simpa using hz⟩)

-- The seed queue inherits nodup from the id set.
theorem seedQueue_nodup {subtasks : List Subtask} (hnd : (taskIds subtasks).Nodup) :
    (seedQueue subtasks).Nodup := by
  unfold seedQueue
  unfold taskIds at hnd
  exact List.Nodup.sublist (List.Sublist.map (·.task_id) (List.filter_sublist subtasks)) hnd

-- The initial count is zero or one.
theorem parentCount0_cases (subtasks : List Subtask) (x : Nat) :
    parentCount0 subtasks x = 0 ∨ parentCount0 subtasks x = 1 := by
  unfold parentCount0
  by_cases h : subtasks.any (fun t => t.task_id == x && t.depends_on.isSome)
  · exact Or.inr (by rw [if_pos h])
  · exact Or.inl (by rw [if_neg h])

/-! ## Occurrence index -/

-- The index of a left member is unchanged by appending.
theorem idxOfN_append_of_mem {x : Nat} : ∀ {l₁ : List Nat} (l₂ : List Nat),
    x ∈ l₁ → idxOfN x (l₁ ++ l₂) = idxOfN x l₁ := by
  intro l₁
  induction l₁ with
  | nil => intro l₂ h; exact absurd h (List.not_mem_nil x)
  | cons y ys ih =>
    intro l₂ h
    by_cases hy : y = x
    · simp [idxOfN, hy]
    · have : x ∈ ys := by
        rcases List.mem_cons.mp h with h' | h'
        · exact absurd h'.symm hy
        · exact h'
      simp [idxOfN, hy, ih l₂ this]

-- A member's index is below the length.
theorem idxOfN_lt_length {x : Nat} : ∀ {l : List Nat}, x ∈ l → idxOfN x l < l.length := by
  intro l
  induction l with
  | nil => intro h; exact absurd h (List.not_mem_nil x)
  | cons y ys ih =>
    intro h
    by_cases hy : y = x
    · simp [idxOfN, hy]
    · have : x ∈ ys := by
        rcases List.mem_cons.mp h with h' | h'
        · exact absurd h'.symm hy
        · exact h'
      simp [idxOfN, hy]
      exact ih this

-- Appending a fresh element places it at the old length.
theorem idxOfN_append_self {x : Nat} : ∀ {l : List Nat}, x ∉ l →
    idxOfN x (l ++ [x]) = l.length := by
  intro l
  induction l with
  | nil => intro _; simp [idxOfN]
  | cons y ys ih =>
    intro h
    have hy : y ≠ x := fun hh => h (hh ▸ List.mem_cons_self y ys)
    have hx : x ∉ ys := fun hh => h (List.mem_cons_of_mem y hh)
    simp [idxOfN, hy, ih hx]

/-! ## Inner decrement loop -/

-- After processing, each id's count has dropped by its number of occurrences
-- among the processed children.
theorem processChildren_fst : ∀ (cs : List Nat) (counts : Nat → Int) (x : Nat),
    (processChildren counts cs).1 x = counts x - (cs.count x : Int) := by
  intro cs
  induction cs with
  | nil => intro counts x; simp [processChildren]
  | cons c cs ih =>
    intro counts x
    show (processChildren (fun y => if y = c then counts c - 1 else counts y) cs).1 x
        = counts x - (((c :: cs).count x : Nat) : Int)
    rw [ih]
    by_cases hx : x = c
    · subst hx
      rw [if_pos rfl, List.count_cons]
      simp only [beq_self_eq_true, if_true]
      push_cast
      ring
    · rw [if_neg hx, List.count_cons]
      have hb : (c == x) = false := by
        simp only [beq_eq_false_iff_ne, ne_eq]
        exact fun h => hx h.symm
      rw [hb]
      simp

-- The enqueued list depends only on the counts of the processed children.
theorem processChildren_snd_congr : ∀ (cs : List Nat) (c1 c2 : Nat → Int),
    (∀ x ∈ cs, c1 x = c2 x) → (processChildren c1 cs).2 = (processChildren c2 cs).2 := by
  intro cs
  induction cs with
  | nil => intro c1 c2 _; rfl
  | cons c cs ih =>
    intro c1 c2 h
    have hc : c1 c = c2 c := h c (List.mem_cons_self c cs)
    show (if c1 c - 1 = 0 then [c] else []) ++
        (processChildren (fun y => if y = c then c1 c - 1 else c1 y) cs).2 =
      (if c2 c - 1 = 0 then [c] else []) ++
        (processChildren (fun y => if y = c then c2 c - 1 else c2 y) cs).2
    rw [hc]
    rw [ih (fun y => if y = c then c2 c - 1 else c1 y) (fun y => if y = c then c2 c - 1 else c2 y)
      (fun x hx => by by_cases hxc : x = c <;> simp [hxc, h x (List.mem_cons_of_mem c hx)])]

-- Processing a nodup children list enqueues exactly those children whose
-- count was one (and therefore hit zero).
theorem processChildren_snd_nodup : ∀ (cs : List Nat), cs.Nodup → ∀ (counts : Nat → Int),
    (processChildren counts cs).2 = cs.filter (fun c => counts c == 1) := by
  intro cs
  induction cs with
  | nil => intro _ counts; rfl
  | cons c cs ih =>
    intro hnd counts
    obtain ⟨hc, hcs⟩ := List.nodup_cons.mp hnd
    show (if counts c - 1 = 0 then [c] else []) ++
        (processChildren (fun y => if y = c then counts c - 1 else counts y) cs).2 =
      (c :: cs).filter (fun c => counts c == 1)
    rw [processChildren_snd_congr cs _ counts
      (fun x hx => by rw [if_neg (fun hh : x = c => hc (hh ▸ hx))])]
    rw [ih hcs counts, List.filter_cons]
    by_cases h1 : counts c = 1
    · rw [if_pos (by rw [Int.sub_eq_zero]; exact h1), if_pos (by simp [h1])]
      rfl
    · rw [if_neg (fun hh => h1 (Int.sub_eq_zero.mp hh)), if_neg (by simp [h1])]
      rfl

/-! ## Loop invariant: base, step, run -/

-- At loop entry the invariant holds for the seed queue and initial counts.
theorem kahn_init (subtasks : List Subtask) (hnd : (taskIds subtasks).Nodup) :
    KahnInv subtasks [] (seedQueue subtasks) (parentCount0 subtasks) := by
  refine ⟨?_, ?_, ?_, ?_, ?_, ?_, ?_⟩
  · simpa using seedQueue_nodup hnd
  · intro x hx
    exact (seedQueue_mem.mp (by simpa using hx)).1
  · intro x _ _
    rfl
  · intro x _ d _ hd
    exact absurd hd (List.not_mem_nil d)
  · intro x hx
    simp only [List.nil_append]
    rw [seedQueue_mem]
    constructor
    · rintro ⟨_, hz⟩
      exact le_of_eq hz
    · intro hle
      rcases parentCount0_cases subtasks x with h | h
      · exact ⟨hx, h⟩
      · rw [h] at hle
        exact absurd hle (by norm_num)
  · intro x hxq d hp
    have hz := (seedQueue_mem.mp hxq).2
    have hx := (seedQueue_mem.mp hxq).1
    rw [parentCount0_eq hnd hx] at hz
    simp [hp] at hz
  · intro x hx
    exact absurd hx (List.not_mem_nil x)

-- One pop of the queue head preserves the invariant: the head moves to the
-- emitted order and all of its children (each carrying count one) are
-- decremented to zero and enqueued.
theorem kahn_step (subtasks : List Subtask) (hnd : (taskIds subtasks).Nodup)
    (result rest : List Nat) (counts : Nat → Int) (d₀ : Nat)
    (inv : KahnInv subtasks result (d₀ :: rest) counts) :
    KahnInv subtasks (result ++ [d₀])
      (rest ++ (processChildren counts (sortNat (childrenOf subtasks d₀))).2)
      (processChildren counts (sortNat (childrenOf subtasks d₀))).1 := by
  have hperm : (sortNat (childrenOf subtasks d₀)).Perm (childrenOf subtasks d₀) :=
    sortNat_perm _
  have hcs_nodup : (sortNat (childrenOf subtasks d₀)).Nodup :=
    hperm.nodup_iff.mpr (childrenOf_nodup hnd d₀)
  have hcs_mem : ∀ c, c ∈ sortNat (childrenOf subtasks d₀) ↔
      c ∈ taskIds subtasks ∧ parentOf subtasks c = some d₀ :=
    fun c => hperm.mem_iff.trans (childrenOf_mem hnd)
  have hd₀_old : d₀ ∈ result ++ d₀ :: rest := by simp
  have hd₀_ids : d₀ ∈ taskIds subtasks := inv.mem_ids d₀ hd₀_old
  have hd₀_not_res : d₀ ∉ result := by
    rcases List.nodup_append.mp inv.nodup with ⟨_, _, hdisj⟩
    exact fun hmem => hdisj hmem (List.mem_cons_self d₀ rest)
  have hcounts_cs : ∀ c ∈ sortNat (childrenOf subtasks d₀), counts c = 1 := by
    intro c hc
    obtain ⟨hcid, hcp⟩ := (hcs_mem c).mp hc
    have h1 := inv.counts_unres c hcid (fun d hd => by
      rw [hcp] at hd
      injection hd with hd
      subst hd
      exact hd₀_not_res)
    rw [h1, parentCount0_eq hnd hcid, hcp]
    rfl
  have henq : (processChildren counts (sortNat (childrenOf subtasks d₀))).2 =
      sortNat (childrenOf subtasks d₀) := by
    rw [processChildren_snd_nodup _ hcs_nodup]
    apply List.filter_eq_self.mpr
    intro c hc
    simp [hcounts_cs c hc]
  have hfst_mem : ∀ c ∈ sortNat (childrenOf subtasks d₀),
      (processChildren counts (sortNat (childrenOf subtasks d₀))).1 c = counts c - 1 := by
    intro c hc
    rw [processChildren_fst, List.count_eq_one_of_mem hcs_nodup hc]
    norm_num
  have hfst_not : ∀ x, x ∉ sortNat (childrenOf subtasks d₀) →
      (processChildren counts (sortNat (childrenOf subtasks d₀))).1 x = counts x := by
    intro x hx
    rw [processChildren_fst, List.count_eq_zero_of_not_mem hx]
    norm_num
  have hcs_not_old : ∀ c ∈ sortNat (childrenOf subtasks d₀), c ∉ result ++ d₀ :: rest := by
    intro c hc hmem
    have h1 := (inv.mem_iff c ((hcs_mem c).mp hc).1).mp hmem
    rw [hcounts_cs c hc] at h1
    exact absurd h1 (by norm_num)
  have hmem_eq : ∀ x, (x ∈ (result ++ [d₀]) ++
      (rest ++ (processChildren counts (sortNat (childrenOf subtasks d₀))).2)) ↔
      (x ∈ result ++ d₀ :: rest ∨ x ∈ sortNat (childrenOf subtasks d₀)) := by
    intro x
    rw [henq]
    simp only [List.mem_append, List.mem_cons, List.mem_singleton]
    tauto
  refine ⟨?_, ?_, ?_, ?_, ?_, ?_, ?_⟩
  · rw [henq]
    have hre : (result ++ [d₀]) ++ (rest ++ sortNat (childrenOf subtasks d₀)) =
        (result ++ d₀ :: rest) ++ sortNat (childrenOf subtasks d₀) := by simp
    rw [hre, List.nodup_append]
    exact ⟨inv.nodup, hcs_nodup, fun a ha hacs => hcs_not_old a hacs ha⟩
  · intro x hx
    rcases (hmem_eq x).mp hx with h | h
    · exact inv.mem_ids x h
    · exact ((hcs_mem x).mp h).1
  · intro x hx hunres
    have hxnotcs : x ∉ sortNat (childrenOf subtasks d₀) := fun hc => by
      obtain ⟨_, hp⟩ := (hcs_mem x).mp hc
      exact hunres d₀ hp (by simp)
    rw [hfst_not x hxnotcs]
    apply inv.counts_unres x hx
    intro d hd hdres
    exact hunres d hd (by simp [hdres])
  · intro x hx d hp hdres'
    have hd' : d ∈ result ∨ d = d₀ := by simpa using hdres'
    rcases hd' with hdres | hdeq
    · have hxnotcs : x ∉ sortNat (childrenOf subtasks d₀) := fun hc => by
        obtain ⟨_, hp'⟩ := (hcs_mem x).mp hc
        rw [hp] at hp'
        injection hp' with hdd
        subst hdd
        exact hd₀_not_res hdres
      rw [hfst_not x hxnotcs]
      exact inv.counts_res x hx d hp hdres
    · subst hdeq
      have hxcs : x ∈ sortNat (childrenOf subtasks d) := (hcs_mem x).mpr ⟨hx, hp⟩
      rw [hfst_mem x hxcs]
      have h1 := inv.counts_unres x hx (fun d' hd' => by
        rw [hp] at hd'
        injection hd' with hdd
        subst hdd
        exact hd₀_not_res)
      rw [h1]
  · intro x hx
    rw [hmem_eq x]
    by_cases hc : x ∈ sortNat (childrenOf subtasks d₀)
    · constructor
      · intro _
        rw [hfst_mem x hc, hcounts_cs x hc]
        norm_num
      · intro _
        exact Or.inr hc
    · rw [hfst_not x hc]
      constructor
      · rintro (h | h)
        · exact (inv.mem_iff x hx).mp h
        · exact absurd h hc
      · intro h
        exact Or.inl ((inv.mem_iff x hx).mpr h)
  · intro x hxq d hp
    rw [henq] at hxq
    rcases List.mem_append.mp hxq with hr | hcsx
    · exact List.mem_append.mpr
        (Or.inl (inv.queue_resolved x (List.mem_cons_of_mem d₀ hr) d hp))
    · obtain ⟨_, hp'⟩ := (hcs_mem x).mp hcsx
      rw [hp] at hp'
      injection hp' with hdd
      simp [hdd]
  · intro x hxr d hp
    rcases List.mem_append.mp hxr with hxres | hxd
    · obtain ⟨hdres, hidx⟩ := inv.ordered x hxres d hp
      refine ⟨List.mem_append.mpr (Or.inl hdres), ?_⟩
      rw [idxOfN_append_of_mem [d₀] hdres, idxOfN_append_of_mem [d₀] hxres]
      exact hidx
    · have hxd₀ : x = d₀ := by simpa using hxd
      subst hxd₀
      have hdres : d ∈ result := inv.queue_resolved x (List.mem_cons_self x rest) d hp
      refine ⟨List.mem_append.mpr (Or.inl hdres), ?_⟩
      rw [idxOfN_append_of_mem [x] hdres, idxOfN_append_self hd₀_not_res]
      exact idxOfN_lt_length hdres

-- Running the loop with fuel exceeding the number of member ids empties the
-- queue and preserves the invariant; the emitted order only grows.
theorem kahn_run (subtasks : List Subtask) (hnd : (taskIds subtasks).Nodup) :
    ∀ (fuel : Nat) (result queue : List Nat) (counts : Nat → Int),
      KahnInv subtasks result queue counts →
      (taskIds subtasks).length + 1 ≤ result.length + fuel →
      ∃ counts2, KahnInv subtasks (kahnLoop subtasks fuel result queue counts) [] counts2 ∧
        ∃ tail, kahnLoop subtasks fuel result queue counts = result ++ tail := by
  intro fuel
  induction fuel with
  | zero =>
    intro result queue counts inv hlen
    have hle := (List.Nodup.subperm inv.nodup (fun x hx => inv.mem_ids x hx)).length_le
    rw [List.length_append] at hle
    cases queue with
    | nil =>
      exact ⟨counts, by simpa [kahnLoop] using inv, [], by simp [kahnLoop]⟩
    | cons q qs =>
      exfalso
      rw [List.length_cons] at hle
      omega
  | succ fuel ih =>
    intro result queue counts inv hlen
    cases queue with
    | nil =>
      exact ⟨counts, by simpa [kahnLoop] using inv, [], by simp [kahnLoop]⟩
    | cons d₀ rest =>
      have inv' := kahn_step subtasks hnd result rest counts d₀ inv
      have hlen' : (taskIds subtasks).length + 1 ≤ (result ++ [d₀]).length + fuel := by
        rw [List.length_append]
        simp only [List.length_singleton]
        omega
      obtain ⟨c2, hinv2, tail, htail⟩ := ih (result ++ [d₀]) _ _ inv' hlen'
      have hunfold : kahnLoop subtasks (fuel + 1) result (d₀ :: rest) counts
          = kahnLoop subtasks fuel (result ++ [d₀])
              (rest ++ (processChildren counts (sortNat (childrenOf subtasks d₀))).2)
              (processChildren counts (sortNat (childrenOf subtasks d₀))).1 := rfl
      rw [hunfold]
      exact ⟨c2, hinv2, [d₀] ++ tail, by rw [htail, List.append_assoc]⟩

-- With every dependency inside the id set, scheduler validation passes.
theorem hasDanglingDep_eq_none (subtasks : List Subtask)
    (hin : ∀ t ∈ subtasks, ∀ d, t.depends_on = some d → d ∈ taskIds subtasks) :
    hasDanglingDep subtasks = none := by
  unfold hasDanglingDep
  have h : subtasks.find? (fun t =>
      match t.depends_on with
      | some d => !((taskIds subtasks).contains d)
      | none => false) = none := by
    rw [List.find?_eq_none]
    intro t ht
    cases hdep : t.depends_on with
    | none => simp
    | some d =>
      have hc : (taskIds subtasks).contains d = true :=
        List.elem_eq_true_of_mem (hin t ht d hdep)
      simp only [Bool.not_eq_true, Bool.not_eq_eq_eq_not, Bool.not_true]
      rw [hc]
      simp
  rw [h]

-- Under the forest hypotheses every member id is emitted: well-founded
-- induction along the rank certificate using the final invariant.
theorem kahn_mem_of_rank (subtasks : List Subtask) (hnd : (taskIds subtasks).Nodup)
    (hin : ∀ t ∈ subtasks, ∀ d, t.depends_on = some d → d ∈ taskIds subtasks)
    (r : Nat → Nat)
    (hr : ∀ t ∈ subtasks, ∀ d, t.depends_on = some d → r d < r t.task_id)
    (order : List Nat) (counts2 : Nat → Int)
    (hinv : KahnInv subtasks order [] counts2) :
    ∀ x ∈ taskIds subtasks, x ∈ order := by
  have H : ∀ n x, x ∈ taskIds subtasks → r x < n → x ∈ order := by
    intro n
    induction n with
    | zero => intro x _ h; omega
    | succ n ih =>
      intro x hx hrx
      have hmem : counts2 x ≤ 0 → x ∈ order := fun h => by
        have := (hinv.mem_iff x hx).mpr h
        simpa using this
      cases hpx : parentOf subtasks x with
      | none =>
        apply hmem
        have h1 := hinv.counts_unres x hx (fun d hd => by
          rw [hpx] at hd
          exact absurd hd (by simp))
        rw [h1, parentCount0_eq hnd hx, hpx]
        simp
      | some d =>
        obtain ⟨t, hlt⟩ : ∃ t, lookupById subtasks x = some t := by
          unfold parentOf at hpx
          cases hl : lookupById subtasks x with
          | none => rw [hl] at hpx; exact absurd hpx (by simp)
          | some t => exact ⟨t, rfl⟩
        obtain ⟨htm, htid⟩ := lookupById_mem hlt
        have htdep : t.depends_on = some d := by
          unfold parentOf at hpx
          rw [hlt] at hpx
          exact hpx
        have hdid : d ∈ taskIds subtasks := hin t htm d htdep
        have hrd : r d < r x := htid ▸ hr t htm d htdep
        have hd_ord : d ∈ order := ih d hdid (by omega)
        apply hmem
        rw [hinv.counts_res x hx d hpx hd_ord, parentCount0_eq hnd hx, hpx]
        simp
  intro x hx
  exact H (r x + 1) x hx (by omega)

/-- C4: for every set of subtasks forming a single-parent dependency forest
(distinct task ids, every declared dependency inside the set, and no cycles,
witnessed by a rank certificate strictly decreasing along dependencies), the
Dependency Scheduler succeeds and its output order contains every task
exactly once and places every task strictly after the task it depends on. -/
theorem c4_scheduler_forest_order (subtasks : List Subtask)
    (hnd : (taskIds subtasks).Nodup)
    (hin : ∀ t ∈ subtasks, ∀ d, t.depends_on = some d → d ∈ taskIds subtasks)
    (r : Nat → Nat)
    (hr : ∀ t ∈ subtasks, ∀ d, t.depends_on = some d → r d < r t.task_id) :
    ∃ order, _topological_sort subtasks = .ok order ∧
      (∀ t ∈ subtasks, order.count t.task_id = 1) ∧
      (∀ x d, x ∈ order → parentOf subtasks x = some d →
        d ∈ order ∧ idxOfN d order < idxOfN x order) := by
  have hts : _topological_sort subtasks =
      .ok (kahnLoop subtasks (2 * subtasks.length + 1) [] (seedQueue subtasks)
        (parentCount0 subtasks)) := by
    unfold _topological_sort
    rw [hasDanglingDep_eq_none subtasks hin]
  obtain ⟨c2, hinv, tail, htail⟩ := kahn_run subtasks hnd (2 * subtasks.length + 1)
    [] (seedQueue subtasks) (parentCount0 subtasks) (kahn_init subtasks hnd)
    (by unfold taskIds; rw [List.length_map]; omega)
  have hcomp := kahn_mem_of_rank subtasks hnd hin r hr _ c2 hinv
  have hnodup : (kahnLoop subtasks (2 * subtasks.length + 1) [] (seedQueue subtasks)
      (parentCount0 subtasks)).Nodup := by simpa using hinv.nodup
  refine ⟨_, hts, ?_, ?_⟩
  · intro t ht
    exact List.count_eq_one_of_mem hnodup
      (hcomp t.task_id (List.mem_map_of_mem (·.task_id) ht))
  · intro x d hx hp
    exact hinv.ordered x hx d hp

/-- Witness for C4: the forest 1 ← 2, 1 ← 3, 3 ← 4 (with rank the identity)
is scheduled successfully; every task appears exactly once and strictly
after its dependency. -/
theorem c4_scheduler_forest_order_witness :
    (taskIds [wSubGpa, wSubDep, ⟨3, "gpa", "third", some 1⟩, ⟨4, "gpa", "fourth", some 3⟩]).Nodup ∧
    ∃ order, _topological_sort
        [wSubGpa, wSubDep, ⟨3, "gpa", "third", some 1⟩, ⟨4, "gpa", "fourth", some 3⟩] =
        .ok order ∧
      (∀ t ∈ [wSubGpa, wSubDep, ⟨3, "gpa", "third", some 1⟩, ⟨4, "gpa", "fourth", some 3⟩],
        order.count t.task_id = 1) ∧
      (∀ x d, x ∈ order →
        parentOf [wSubGpa, wSubDep, ⟨3, "gpa", "third", some 1⟩, ⟨4, "gpa", "fourth", some 3⟩] x =
          some d →
        d ∈ order ∧ idxOfN d order < idxOfN x order) :=
  ⟨by decide,
    c4_scheduler_forest_order
      [wSubGpa, wSubDep, ⟨3, "gpa", "third", some 1⟩, ⟨4, "gpa", "fourth", some 3⟩]
      (by decide)
      (by intro t ht d hd; fin_cases ht <;> simp_all [taskIds, wSubGpa, wSubDep])
      (fun x => x)
      (by intro t ht d hd; fin_cases ht <;> simp_all [wSubGpa, wSubDep] <;> omega)⟩

/-! ## Executor totality and key tracking -/

-- When every scheduled id resolves in `subtasks_by_id`, the executor loop
-- finishes normally, whatever the gateways do.
theorem execLoop_total (gpa : GpaOracle) (ums : UmsOracle) (subtasks : List Subtask) :
    ∀ (order : List Nat) (results : List (Nat × TaskResult)) (st : CoordState),
      (∀ tid ∈ order, (lookupById subtasks tid).isSome) →
      ∃ out st2, execLoop gpa ums subtasks order results st = .ok (out, st2) := by
  intro order
  induction order with
  | nil => intro results st _; exact ⟨results, st, rfl⟩
  | cons tid rest ih =>
    intro results st hlk
    obtain ⟨u, hu⟩ := Option.isSome_iff_exists.mp (hlk tid (List.mem_cons_self tid rest))
    have hrest : ∀ t ∈ rest, (lookupById subtasks t).isSome :=
      fun t ht => hlk t (List.mem_cons_of_mem tid ht)
    cases hc : callAgent gpa ums st u (gatherContext u results) with
    | ok msg =>
      obtain ⟨out, st2, hout⟩ := ih _ (mergeState st msg) hrest
      refine ⟨out, st2, ?_⟩
      unfold execLoop
      rw [hu]
      dsimp only
      rw [hc]
      exact hout
    | error e =>
      obtain ⟨out, st2, hout⟩ := ih _ st hrest
      refine ⟨out, st2, ?_⟩
      unfold execLoop
      rw [hu]
      dsimp only
      rw [hc]
      exact hout

-- With a nodup schedule of fresh ids, the finished loop's key list is the
-- starting keys followed by the schedule: one recorded result per scheduled
-- task, in schedule order.
theorem execLoop_keys (gpa : GpaOracle) (ums : UmsOracle) (subtasks : List Subtask) :
    ∀ (order : List Nat) (results : List (Nat × TaskResult)) (st : CoordState)
      (out : List (Nat × TaskResult)) (st2 : CoordState),
      execLoop gpa ums subtasks order results st = .ok (out, st2) →
      order.Nodup →
      (∀ tid ∈ order, tid ∉ results.map Prod.fst) →
      out.map Prod.fst = results.map Prod.fst ++ order := by
  intro order
  induction order with
  | nil =>
    intro results st out st2 h _ _
    simp only [execLoop, Except.ok.injEq, Prod.mk.injEq] at h
    rw [← h.1]
    simp
  | cons tid rest ih =>
    intro results st out st2 h hnd hfresh
    obtain ⟨hndh, hndr⟩ := List.nodup_cons.mp hnd
    unfold execLoop at h
    cases hlk : lookupById subtasks tid with
    | none => rw [hlk] at h; exact absurd h (by simp)
    | some u =>
      rw [hlk] at h
      dsimp only at h
      have hfr : tid ∉ results.map Prod.fst := hfresh tid (List.mem_cons_self tid rest)
      have hkeys : ∀ (v : TaskResult),
          (dinsert tid v results).map Prod.fst = results.map Prod.fst ++ [tid] := by
        intro v
        rw [dinsert_eq_append v results hfr]
        simp
      have hfresh' : ∀ (v : TaskResult) (t : Nat), t ∈ rest →
          t ∉ (dinsert tid v results).map Prod.fst := by
        intro v t ht hmem
        rw [hkeys v] at hmem
        rcases List.mem_append.mp hmem with hmem' | hmem'
        · exact hfresh t (List.mem_cons_of_mem tid ht) hmem'
        · rw [List.mem_singleton] at hmem'
          exact hndh (hmem' ▸ ht)
      cases hc : callAgent gpa ums st u (gatherContext u results) with
      | ok msg =>
        rw [hc] at h
        rw [ih _ _ _ _ h hndr (hfresh' _), hkeys]
        simp
      | error e =>
        rw [hc] at h
        rw [ih _ _ _ _ h hndr (hfresh' _), hkeys]
        simp

-- Every member id resolves in `subtasks_by_id`.
theorem lookupById_isSome_of_mem_ids {subtasks : List Subtask}
    (hnd : (taskIds subtasks).Nodup) {x : Nat} (hx : x ∈ taskIds subtasks) :
    (lookupById subtasks x).isSome := by
  obtain ⟨u, hu, hux⟩ := List.mem_map.mp hx
  subst hux
  rw [lookupById_eq hnd hu]
  rfl

/-- C8: for every subtask set (distinct ids, all dependencies in-set)
containing a task that depends on itself, the Dependency Scheduler omits that
task from the output order without raising an error, omitted tasks' own
dependents are likewise absent (every emitted id's dependency is emitted),
and for every gateway behavior the executor completes normally with no
`TaskResult` recorded for the self-dependent task. -/
theorem c8_cycle_silently_dropped (subtasks : List Subtask)
    (hnd : (taskIds subtasks).Nodup)
    (hin : ∀ t ∈ subtasks, ∀ d, t.depends_on = some d → d ∈ taskIds subtasks)
    (t : Subtask) (ht : t ∈ subtasks) (hself : t.depends_on = some t.task_id) :
    ∃ order, _topological_sort subtasks = .ok order ∧ t.task_id ∉ order ∧
      (∀ y ∈ order, ∀ d, parentOf subtasks y = some d → d ∈ order) ∧
      ∀ (gpa : GpaOracle) (ums : UmsOracle) (st : CoordState),
        ∃ out st2, _execute_subtasks gpa ums subtasks st = .ok (out, st2) ∧
          ∀ tr ∈ out, tr.task.task_id ≠ t.task_id := by
  have hts : _topological_sort subtasks =
      .ok (kahnLoop subtasks (2 * subtasks.length + 1) [] (seedQueue subtasks)
        (parentCount0 subtasks)) := by
    unfold _topological_sort
    rw [hasDanglingDep_eq_none subtasks hin]
  obtain ⟨c2, hinv, tail, htail⟩ := kahn_run subtasks hnd (2 * subtasks.length + 1)
    [] (seedQueue subtasks) (parentCount0 subtasks) (kahn_init subtasks hnd)
    (by unfold taskIds; rw [List.length_map]; omega)
  have hp : parentOf subtasks t.task_id = some t.task_id := by
    rw [parentOf_eq hnd ht]
    exact hself
  have hnotmem : t.task_id ∉ kahnLoop subtasks (2 * subtasks.length + 1) []
      (seedQueue subtasks) (parentCount0 subtasks) := by
    intro hmem
    obtain ⟨_, hidx⟩ := hinv.ordered _ hmem _ hp
    omega
  refine ⟨_, hts, hnotmem, fun y hy d hpd => (hinv.ordered y hy d hpd).1, ?_⟩
  intro gpa ums st
  have hlks : ∀ tid ∈ kahnLoop subtasks (2 * subtasks.length + 1) [] (seedQueue subtasks)
      (parentCount0 subtasks), (lookupById subtasks tid).isSome := by
    intro tid htid
    exact lookupById_isSome_of_mem_ids hnd (hinv.mem_ids tid (by simpa using htid))
  obtain ⟨out0, st2, hl⟩ := execLoop_total gpa ums subtasks _ [] st hlks
  refine ⟨out0.map (·.2), st2, ?_, ?_⟩
  · unfold _execute_subtasks
    rw [hts]
    dsimp only
    rw [hl]
  · intro tr htr
    obtain ⟨p, hpmem, hptr⟩ := List.mem_map.mp htr
    obtain ⟨k, tr'⟩ := p
    rcases execLoop_entries gpa ums subtasks _ [] st out0 st2 hl k tr' hpmem with h0 | hfound
    · exact absurd h0 (List.not_mem_nil _)
    · obtain ⟨hkord, u, context, s, hlu, hentry⟩ := hfound
      obtain ⟨_, huk⟩ := lookupById_mem hlu
      have htask : tr'.task = u := hentry ▸ (execEntry_task gpa ums s u context).1
      dsimp only at hptr
      rw [← hptr, htask, huk]
      exact fun hkt => hnotmem (hkt ▸ hkord)

/-- Witness for C8: in the set {1 (no dep), 2 (depends on itself), 3
(depends on 2)}, the scheduler emits an order without 2, every emitted id's
dependency is emitted (so 3 is also absent), and a run of the executor
records no `TaskResult` for task 2. -/
theorem c8_cycle_silently_dropped_witness :
    ∃ order, _topological_sort [wSubGpa, wSubSelf, wSubChild] = .ok order ∧
      wSubSelf.task_id ∉ order ∧
      (∀ y ∈ order, ∀ d, parentOf [wSubGpa, wSubSelf, wSubChild] y = some d → d ∈ order) ∧
      ∀ (gpa : GpaOracle) (ums : UmsOracle) (st : CoordState),
        ∃ out st2, _execute_subtasks gpa ums [wSubGpa, wSubSelf, wSubChild] st = .ok (out, st2) ∧
          ∀ tr ∈ out, tr.task.task_id ≠ wSubSelf.task_id :=
  c8_cycle_silently_dropped [wSubGpa, wSubSelf, wSubChild] (by decide)
    (by intro t ht d hd; fin_cases ht <;> simp_all [taskIds, wSubGpa, wSubSelf, wSubChild])
    wSubSelf (by decide) rfl

-- Under the forest hypotheses the executor completes normally, records
-- exactly one result per subtask, and each recorded result is the outcome
-- of one agent call on its own subtask.
theorem exec_forest_complete (subtasks : List Subtask)
    (hnd : (taskIds subtasks).Nodup)
    (hin : ∀ t ∈ subtasks, ∀ d, t.depends_on = some d → d ∈ taskIds subtasks)
    (r : Nat → Nat)
    (hr : ∀ t ∈ subtasks, ∀ d, t.depends_on = some d → r d < r t.task_id)
    (gpa : GpaOracle) (ums : UmsOracle) (st : CoordState) :
    ∃ out st2, _execute_subtasks gpa ums subtasks st = .ok (out, st2) ∧
      out.length = subtasks.length ∧
      ∀ u ∈ subtasks, ∃ tr ∈ out, tr.task = u ∧
        ∃ context s, tr = execEntry gpa ums s u context := by
  have hts : _topological_sort subtasks =
      .ok (kahnLoop subtasks (2 * subtasks.length + 1) [] (seedQueue subtasks)
        (parentCount0 subtasks)) := by
    unfold _topological_sort
    rw [hasDanglingDep_eq_none subtasks hin]
  obtain ⟨c2, hinv, tail, htail⟩ := kahn_run subtasks hnd (2 * subtasks.length + 1)
    [] (seedQueue subtasks) (parentCount0 subtasks) (kahn_init subtasks hnd)
    (by unfold taskIds; rw [List.length_map]; omega)
  have hcomp := kahn_mem_of_rank subtasks hnd hin r hr _ c2 hinv
  have hnodup : (kahnLoop subtasks (2 * subtasks.length + 1) [] (seedQueue subtasks)
      (parentCount0 subtasks)).Nodup := by simpa using hinv.nodup
  have hsub : ∀ x ∈ kahnLoop subtasks (2 * subtasks.length + 1) [] (seedQueue subtasks)
      (parentCount0 subtasks), x ∈ taskIds subtasks := by
    intro x hx
    exact hinv.mem_ids x (by simpa using hx)
  have hlks : ∀ tid ∈ kahnLoop subtasks (2 * subtasks.length + 1) [] (seedQueue subtasks)
      (parentCount0 subtasks), (lookupById subtasks tid).isSome :=
    fun tid htid => lookupById_isSome_of_mem_ids hnd (hsub tid htid)
  obtain ⟨out0, st2, hl⟩ := execLoop_total gpa ums subtasks _ [] st hlks
  have hkeys := execLoop_keys gpa ums subtasks _ [] st out0 st2 hl hnodup (by simp)
  simp only [List.map_nil, List.nil_append] at hkeys
  have hlen : out0.length = subtasks.length := by
    have h1 : out0.length = (kahnLoop subtasks (2 * subtasks.length + 1) []
        (seedQueue subtasks) (parentCount0 subtasks)).length := by
      rw [← hkeys, List.length_map]
    have h2 := (List.Nodup.subperm hnodup hsub).length_le
    have h3 := (List.Nodup.subperm hnd hcomp).length_le
    have h4 : (taskIds subtasks).length = subtasks.length := by
      unfold taskIds
      rw [List.length_map]
    omega
  refine ⟨out0.map (·.2), st2, ?_, by rw [List.length_map]; exact hlen, ?_⟩
  · unfold _execute_subtasks
    rw [hts]
    dsimp only
    rw [hl]
  · intro u hu
    have hidm : u.task_id ∈ out0.map Prod.fst := by
      rw [hkeys]
      exact hcomp u.task_id (List.mem_map_of_mem (·.task_id) hu)
    obtain ⟨p, hpmem, hpk⟩ := List.mem_map.mp hidm
    obtain ⟨k, tr'⟩ := p
    dsimp only at hpk
    subst hpk
    rcases execLoop_entries gpa ums subtasks _ [] st out0 st2 hl _ tr' hpmem with h0 | hfound
    · exact absurd h0 (List.not_mem_nil _)
    · obtain ⟨hkord, u', context, s, hlu, hentry⟩ := hfound
      have hu' : u' = u := by
        rw [lookupById_eq hnd hu] at hlu
        injection hlu with h
        exact h.symm
      refine ⟨tr', List.mem_map.mpr ⟨(u.task_id, tr'), hpmem, rfl⟩, ?_, context, s, ?_⟩
      · rw [hentry]
        exact (execEntry_task gpa ums s u' context).1.trans hu'
      · rw [hentry, hu']

/-- C3 (counterexample): the original claim promises a NON-EMPTY error
string for every raising gateway call, but the per-task handler records
`error = str(e)` verbatim; a gateway exception whose stringification is
empty (Python `raise Exception()`) yields a recorded `AgentResult` whose
error is the empty string. -/
theorem c3_empty_error_counterexample :
    ∃ out st2, _execute_subtasks wGpaEmptyBoom wUms [wSubGpa] wState = .ok (out, st2) ∧
      ∃ tr ∈ out, tr.task = wSubGpa ∧ tr.agent_result.success = false ∧
        tr.agent_result.error = some "" :=
  ⟨[⟨wSubGpa, ⟨1, "gpa", "", false, some ""⟩⟩], wState, by decide,
    ⟨wSubGpa, ⟨1, "gpa", "", false, some ""⟩⟩, by decide, by decide, by decide, by decide⟩

/-- C3 (amended): for every subtask forest and every subtask whose gateway
call raises an exception, the executor records an `AgentResult` for it with
`success = false`, empty content, and the stringified exception as its error
(present always; empty exactly when the exception stringifies empty), and
the remaining subtasks of the wave are all still executed: the executor
completes normally with one recorded result per subtask. -/
theorem c3_gateway_failure_isolation (subtasks : List Subtask)
    (hnd : (taskIds subtasks).Nodup)
    (hin : ∀ t ∈ subtasks, ∀ d, t.depends_on = some d → d ∈ taskIds subtasks)
    (r : Nat → Nat)
    (hr : ∀ t ∈ subtasks, ∀ d, t.depends_on = some d → r d < r t.task_id)
    (gpa : GpaOracle) (ums : UmsOracle) (st : CoordState)
    (t : Subtask) (ht : t ∈ subtasks) (e : PyExn)
    (hfail : ∀ (s : CoordState) (context : Option String),
      callAgent gpa ums s t context = .error e) :
    ∃ out st2, _execute_subtasks gpa ums subtasks st = .ok (out, st2) ∧
      (∃ tr ∈ out, tr.task = t ∧ tr.agent_result.success = false ∧
        tr.agent_result.content = "" ∧ tr.agent_result.error = some e.str) ∧
      out.length = subtasks.length ∧
      (∀ u ∈ subtasks, ∃ tr ∈ out, tr.task = u) := by
  obtain ⟨out, st2, hok, hlen, hall⟩ :=
    exec_forest_complete subtasks hnd hin r hr gpa ums st
  obtain ⟨tr, htr, htask, context, s, hentry⟩ := hall t ht
  have hfshape : execEntry gpa ums s t context =
      ⟨t, ⟨t.task_id, t.agent_name, "", false, some e.str⟩⟩ := by
    unfold execEntry
    rw [hfail]
  refine ⟨out, st2, hok, ⟨tr, htr, htask, ?_, ?_, ?_⟩, hlen,
    fun u hu => by obtain ⟨tr', htr', htask', _⟩ := hall u hu; exact ⟨tr', htr', htask'⟩⟩
  · rw [hentry, hfshape]
  · rw [hentry, hfshape]
  · rw [hentry, hfshape]

/-- Witness for C3 (amended): in the wave {1 (no dep), 2 (depends on 1)}
with a GPA gateway that always raises "boom", task 1's recorded result is
the caught failure with error "boom", and both tasks are still executed. -/
theorem c3_gateway_failure_isolation_witness :
    ∃ out st2, _execute_subtasks wGpaBoom wUms [wSubGpa, wSubDep] wState = .ok (out, st2) ∧
      (∃ tr ∈ out, tr.task = wSubGpa ∧ tr.agent_result.success = false ∧
        tr.agent_result.content = "" ∧
        tr.agent_result.error = some (PyExn.other "boom").str) ∧
      out.length = ([wSubGpa, wSubDep] : List Subtask).length ∧
      (∀ u ∈ [wSubGpa, wSubDep], ∃ tr ∈ out, tr.task = u) :=
  c3_gateway_failure_isolation [wSubGpa, wSubDep] (by decide)
    (by intro t ht d hd; fin_cases ht <;> simp_all [taskIds, wSubGpa, wSubDep])
    (fun x => x)
    (by intro t ht d hd; fin_cases ht <;> simp_all [wSubGpa, wSubDep] <;> omega)
    wGpaBoom wUms wState wSubGpa (by decide) (.other "boom")
    (fun s context => rfl)

/-- C1 (amended): for every subtask forest containing a subtask whose
`agent_name` is not a known capability (neither GPA nor UMS), the executor
call does NOT fail as a whole: the `ValueError` raised by `_call_agent` is
caught at the per-subtask boundary, that task's result records
`success = false`, empty content and the error "Unknown agent: <name>", and
every other subtask of the wave is still executed. -/
theorem c1_unknown_agent_per_task_failure (subtasks : List Subtask)
    (hnd : (taskIds subtasks).Nodup)
    (hin : ∀ t ∈ subtasks, ∀ d, t.depends_on = some d → d ∈ taskIds subtasks)
    (r : Nat → Nat)
    (hr : ∀ t ∈ subtasks, ∀ d, t.depends_on = some d → r d < r t.task_id)
    (gpa : GpaOracle) (ums : UmsOracle) (st : CoordState)
    (t : Subtask) (ht : t ∈ subtasks)
    (hg : t.agent_name ≠ AgentNameGPA) (hu : t.agent_name ≠ AgentNameUMS) :
    ∃ out st2, _execute_subtasks gpa ums subtasks st = .ok (out, st2) ∧
      (∃ tr ∈ out, tr.task = t ∧
        tr.agent_result =
          ⟨t.task_id, t.agent_name, "", false, some ("Unknown agent: " ++ t.agent_name)⟩) ∧
      out.length = subtasks.length ∧
      (∀ u ∈ subtasks, ∃ tr ∈ out, tr.task = u) := by
  obtain ⟨out, st2, hok, hlen, hall⟩ :=
    exec_forest_complete subtasks hnd hin r hr gpa ums st
  obtain ⟨tr, htr, htask, context, s, hentry⟩ := hall t ht
  have hfshape : execEntry gpa ums s t context =
      ⟨t, ⟨t.task_id, t.agent_name, "", false,
        some ("Unknown agent: " ++ t.agent_name)⟩⟩ := by
    unfold execEntry
    rw [callAgent_unknown gpa ums s hg hu context]
    rfl
  refine ⟨out, st2, hok, ⟨tr, htr, htask, ?_⟩, hlen,
    fun u hu' => by obtain ⟨tr', htr', htask', _⟩ := hall u hu'; exact ⟨tr', htr', htask'⟩⟩
  rw [hentry, hfshape]

/-- Witness for C1 (amended): the wave {1 named "search" (unknown), 2 GPA}
executes to a normal result in which task 1 carries the recorded
`ValueError` text and task 2 is still executed. -/
theorem c1_unknown_agent_per_task_failure_witness :
    ∃ out st2,
      _execute_subtasks wGpaOk wUms [wSubUnknown, ⟨2, "gpa", "other", none⟩] wState =
        .ok (out, st2) ∧
      (∃ tr ∈ out, tr.task = wSubUnknown ∧
        tr.agent_result = ⟨1, "search", "", false, some "Unknown agent: search"⟩) ∧
      out.length = ([wSubUnknown, ⟨2, "gpa", "other", none⟩] : List Subtask).length ∧
      (∀ u ∈ [wSubUnknown, ⟨2, "gpa", "other", none⟩], ∃ tr ∈ out, tr.task = u) := by
  have h := c1_unknown_agent_per_task_failure [wSubUnknown, ⟨2, "gpa", "other", none⟩]
    (by decide)
    (by intro t ht d hd; fin_cases ht <;> simp_all [wSubUnknown])
    (fun x => x)
    (by intro t ht d hd; fin_cases ht <;> simp_all [wSubUnknown])
    wGpaOk wUms wState wSubUnknown (by decide) (by decide) (by decide)
  simpa [wSubUnknown] using h
